import Mathlib

set_option linter.unusedVariables false

namespace AstBench

/-- Token kinds of the lexer, in the exact order of the C enum `TokenType`
in `src/ast/c/ast.c` (identically in `src/ast-wasm/c/wasm_ast.c`), so that
`TokenType.toNat` is the numeric ordinal used by the serializers. -/
inductive TokenType where
  | EOF | VAR | IF | ELSE | WHILE
  | LPAREN | RPAREN | LBRACE | RBRACE | SEMICOLON
  | PLUS | MINUS | MULTIPLY | DIVIDE | GREATER | LESS | EQUAL
  | NUMBER | STRING | IDENTIFIER
  deriving DecidableEq, Repr

/-- Numeric ordinal of a token kind, matching the C enum values 0..19. -/
def TokenType.toNat : TokenType → Nat
  | .EOF => 0 | .VAR => 1 | .IF => 2 | .ELSE => 3 | .WHILE => 4
  | .LPAREN => 5 | .RPAREN => 6 | .LBRACE => 7 | .RBRACE => 8 | .SEMICOLON => 9
  | .PLUS => 10 | .MINUS => 11 | .MULTIPLY => 12 | .DIVIDE => 13
  | .GREATER => 14 | .LESS => 15 | .EQUAL => 16
  | .NUMBER => 17 | .STRING => 18 | .IDENTIFIER => 19

/-- The C `Token` struct: kind, lexeme text, and 1-based line/column. -/
structure Token where
  type : TokenType
  value : String
  line : Nat
  column : Nat
  deriving DecidableEq, Repr

/-- The open-brace character, written by code point to keep brace characters
out of literals. -/
def lbrace_char : Char := Char.ofNat 123

/-- The close-brace character, written by code point. -/
def rbrace_char : Char := Char.ofNat 125

/-- C helper `is_digit`. -/
def is_digit (c : Char) : Bool := decide ('0' ≤ c ∧ c ≤ '9')

/-- C helper `is_alpha`: letters and underscore. -/
def is_alpha (c : Char) : Bool :=
  decide ((('a' ≤ c ∧ c ≤ 'z') ∨ ('A' ≤ c ∧ c ≤ 'Z')) ∨ c = '_')

/-- C helper `is_whitespace`: space, newline, tab. -/
def is_whitespace (c : Char) : Bool := decide (c = ' ' ∨ c = '\n' ∨ c = '\t')

/-- C helper `get_location_from_index`: recompute the 1-based line/column of
the character at `index` by walking the input from the start. -/
def get_location_from_index (index : Nat) (input : List Char) : Nat × Nat :=
  (input.take index).foldl
    (fun lc c => if c = '\n' then (lc.1 + 1, 1) else (lc.1, lc.2 + 1)) (1, 1)

/-- C helper `get_keyword_type`: classify a scanned word as keyword or
identifier. -/
def get_keyword_type (s : String) : TokenType :=
  if s = "var" then .VAR
  else if s = "if" then .IF
  else if s = "else" then .ELSE
  else if s = "while" then .WHILE
  else .IDENTIFIER

/-- Outcome of one `STATE_SEARCHING` dispatch on a character in `tokenize`:
either a single-character token is emitted, a multi-character state is
entered, whitespace is skipped, or the character is a lexical error. -/
inductive SearchStep where
  | emit (t : Token)
  | enterString
  | enterNumber
  | enterIdentifier
  | skip
  | err
  deriving DecidableEq, Repr

/-- The `STATE_SEARCHING` branch of `tokenize`, dispatching on the current
character at the current position (the branch order follows the C code). -/
def state_searching_step (c : Char) (line column : Nat) : SearchStep :=
  if c = '"' then .enterString
  else if c = '(' then .emit ⟨.LPAREN, String.mk [c], line, column⟩
  else if c = ')' then .emit ⟨.RPAREN, String.mk [c], line, column⟩
  else if c = ';' then .emit ⟨.SEMICOLON, String.mk [c], line, column⟩
  else if c = lbrace_char then .emit ⟨.LBRACE, String.mk [c], line, column⟩
  else if c = rbrace_char then .emit ⟨.RBRACE, String.mk [c], line, column⟩
  else if c = '+' then .emit ⟨.PLUS, String.mk [c], line, column⟩
  else if c = '-' then .emit ⟨.MINUS, String.mk [c], line, column⟩
  else if c = '*' then .emit ⟨.MULTIPLY, String.mk [c], line, column⟩
  else if c = '/' then .emit ⟨.DIVIDE, String.mk [c], line, column⟩
  else if c = '>' then .emit ⟨.GREATER, String.mk [c], line, column⟩
  else if c = '<' then .emit ⟨.LESS, String.mk [c], line, column⟩
  else if c = '=' then .emit ⟨.EQUAL, String.mk [c], line, column⟩
  else if is_digit c then .enterNumber
  else if is_alpha c then .enterIdentifier
  else if is_whitespace c then .skip
  else .err

/-- The tokenizer state machine states (`TokenizeState` in C).  The
multi-character states carry the recorded start position
(`state_start_line`/`state_start_column`) and the characters accumulated so
far, standing for the source slice `input[state_start .. i-1]` that the C
code extracts when the token is closed.  For `STATE_STRING` the accumulator
begins with the opening quote, because the C code sets `state_start` to the
index of the quote itself. -/
inductive TokState where
  | searching
  | stringState (sl sc : Nat) (acc : List Char)
  | numberState (sl sc : Nat) (acc : List Char)
  | identifierState (sl sc : Nat) (acc : List Char)
  deriving Repr

/-- Position update performed at the end of a `STATE_SEARCHING` iteration of
`tokenize`: newline increments the line and resets the column, anything else
increments the column.  The C code performs this update only in the
`STATE_SEARCHING` branch; the other states advance `i` without it. -/
def update_position (c : Char) (line column : Nat) : Nat × Nat :=
  if c = '\n' then (line + 1, 1) else (line, column + 1)

/-- The scanning loop of `tokenize` (`while (i < input_len)` in C), returning
the remaining token stream, or `none` on the fatal `Unexpected character`
error.  The non-consuming transition (a multi-character token is closed and
the same character is reprocessed in `STATE_SEARCHING`) is inlined: a
`STATE_SEARCHING` iteration always consumes, so the closing iteration and
the following searching iteration are taken together.  Faithfully to the C
code, when the input ends the pending state is dropped without emitting a
token, and the `EOF` token is appended at the current position. -/
def tokenize_loop : TokState → Nat → Nat → List Char → Option (List Token)
  | _, line, column, [] => some [⟨.EOF, "EOF", line, column⟩]
  | .searching, line, column, c :: rest =>
      let p := update_position c line column
      match state_searching_step c line column with
      | .emit t => (tokenize_loop .searching p.1 p.2 rest).map (t :: ·)
      | .enterString => tokenize_loop (.stringState line column ['"']) p.1 p.2 rest
      | .enterNumber => tokenize_loop (.numberState line column [c]) p.1 p.2 rest
      | .enterIdentifier => tokenize_loop (.identifierState line column [c]) p.1 p.2 rest
      | .skip => tokenize_loop .searching p.1 p.2 rest
      | .err => none
  | .identifierState sl sc acc, line, column, c :: rest =>
      if is_alpha c then
        tokenize_loop (.identifierState sl sc (acc ++ [c])) line column rest
      else
        let v := String.mk acc
        let t : Token := ⟨get_keyword_type v, v, sl, sc⟩
        let p := update_position c line column
        match state_searching_step c line column with
        | .emit t2 => (tokenize_loop .searching p.1 p.2 rest).map (fun ts => t :: t2 :: ts)
        | .enterString => (tokenize_loop (.stringState line column ['"']) p.1 p.2 rest).map (t :: ·)
        | .enterNumber => (tokenize_loop (.numberState line column [c]) p.1 p.2 rest).map (t :: ·)
        | .enterIdentifier => (tokenize_loop (.identifierState line column [c]) p.1 p.2 rest).map (t :: ·)
        | .skip => (tokenize_loop .searching p.1 p.2 rest).map (t :: ·)
        | .err => none
  | .numberState sl sc acc, line, column, c :: rest =>
      if is_digit c then
        tokenize_loop (.numberState sl sc (acc ++ [c])) line column rest
      else
        let t : Token := ⟨.NUMBER, String.mk acc, sl, sc⟩
        let p := update_position c line column
        match state_searching_step c line column with
        | .emit t2 => (tokenize_loop .searching p.1 p.2 rest).map (fun ts => t :: t2 :: ts)
        | .enterString => (tokenize_loop (.stringState line column ['"']) p.1 p.2 rest).map (t :: ·)
        | .enterNumber => (tokenize_loop (.numberState line column [c]) p.1 p.2 rest).map (t :: ·)
        | .enterIdentifier => (tokenize_loop (.identifierState line column [c]) p.1 p.2 rest).map (t :: ·)
        | .skip => (tokenize_loop .searching p.1 p.2 rest).map (t :: ·)
        | .err => none
  | .stringState sl sc acc, line, column, c :: rest =>
      if c = '"' then
        (tokenize_loop .searching line column rest).map
          (fun ts => (⟨.STRING, String.mk acc, sl, sc⟩ : Token) :: ts)
      else
        tokenize_loop (.stringState sl sc (acc ++ [c])) line column rest

/-- The C `tokenize` entry point: scan from position (1,1) in the searching
state.  `none` models the fatal `exit(1)` on an unexpected character. -/
def tokenize (input : List Char) : Option (List Token) :=
  tokenize_loop .searching 1 1 input

/-- The C parser state: the token array and the current index.  The C struct
also caches `current_token` and `token_count`; these are derived here
(`current_token` below, and `tokens.length`). -/
structure Parser where
  tokens : List Token
  current_token_index : Nat
  deriving Repr

/-- The token under the cursor (`parser->current_token` in C).  `none` models
an out-of-range cursor, which the C code never dereferences on inputs coming
from `tokenize` (the token array is nonempty and `next_token` guards the
bound). -/
def current_token (p : Parser) : Option Token :=
  p.tokens[p.current_token_index]?

/-- The fatal parser failures: `parser_error` (printing a message tag with
the current token's position as `unexpected symbol`), the `next_token`
failure `Unexpected end of input`, a dereference of an out-of-range cursor
(unreachable from `tokenize` output), and exhaustion of the recursion fuel
of the embedding (the C recursion has no fuel; the bound passed by `parse`
below exceeds any possible recursion depth). -/
inductive ParseError where
  | unexpected_symbol (message : String) (line column : Nat)
  | unexpected_end_of_input
  | invalid_token_index
  | out_of_fuel
  deriving DecidableEq, Repr

/-- C `parser_error`: report the message tag with the current token's
line/column.  In C this calls `exit(1)`; here it builds the error value. -/
def parser_error (p : Parser) (message : String) : ParseError :=
  match current_token p with
  | some t => .unexpected_symbol message t.line t.column
  | none => .invalid_token_index

/-- C `next_token`: advance the cursor, failing fatally when it would move
past the end of the token array. -/
def next_token (p : Parser) : Except ParseError Parser :=
  if p.current_token_index + 1 ≥ p.tokens.length then
    .error .unexpected_end_of_input
  else
    .ok { p with current_token_index := p.current_token_index + 1 }

/-- C `accept`: if the current token has the given kind, consume it and
return `true`; otherwise leave the parser unchanged and return `false`. -/
def accept (p : Parser) (token_type : TokenType) :
    Except ParseError (Bool × Parser) :=
  match current_token p with
  | none => .error .invalid_token_index
  | some t =>
    if t.type = token_type then (next_token p).map (fun p2 => (true, p2))
    else .ok (false, p)

/-- C `peek`: test the current token's kind without consuming. -/
def peek (p : Parser) (token_type : TokenType) : Bool :=
  match current_token p with
  | some t => t.type = token_type
  | none => false

/-- C `expect`: `accept` or fail with the `expect` message tag. -/
def expect (p : Parser) (token_type : TokenType) : Except ParseError Parser := do
  let (b, p2) ← accept p token_type
  if b then .ok p2 else .error (parser_error p2 "expect")

/-- The syntax-tree node type (`ASTNode` in C), one constructor per variant
of the C tagged union, in enum order.  Nullable pointers (`else_block`, and
`operator`/`right` of a terminal expression) become `Option`; the fields the
C code always assigns on the success path are plain. -/
inductive ASTNode where
  | program (block : ASTNode)
  | statement_block (statements : List ASTNode)
  | variable_statement (identifier : String)
  | if_statement (condition block : ASTNode) (else_block : Option ASTNode)
  | while_statement (condition block : ASTNode)
  | assignment_statement (identifier : String) (value : ASTNode)
  | condition (left : ASTNode) (operator : String) (right : ASTNode)
  | expression (left_token : Token) (operator : Option String) (right : Option ASTNode)
  deriving Repr

/-- Numeric ordinal of a node variant, matching the C `NodeType` enum. -/
def ASTNode.type_tag : ASTNode → Nat
  | .program _ => 0
  | .statement_block _ => 1
  | .variable_statement _ => 2
  | .if_statement _ _ _ => 3
  | .while_statement _ _ => 4
  | .assignment_statement _ _ => 5
  | .condition _ _ _ => 6
  | .expression _ _ _ => 7

mutual

/-- C `parse_expression`: remember the current token, accept one of
NUMBER/STRING/IDENTIFIER (short-circuit chain as in C), then optionally
accept one of the four arithmetic operators and recurse for the right
operand (right-recursive, flat precedence). -/
def parse_expression : Nat → Parser → Except ParseError (ASTNode × Parser)
  | 0, _ => .error .out_of_fuel
  | fuel+1, p =>
    match current_token p with
    | none => .error .invalid_token_index
    | some left_token => do
      let (b1, p1) ← accept p .NUMBER
      let (b2, p2) ← if b1 then pure (b1, p1) else accept p1 .STRING
      let (b3, p3) ← if b2 then pure (b2, p2) else accept p2 .IDENTIFIER
      if b3 then do
        let (bp, pp) ← accept p3 .PLUS
        if bp then do
          let (right, p4) ← parse_expression fuel pp
          return (.expression left_token (some "+") (some right), p4)
        else do
          let (bm, pm) ← accept pp .MINUS
          if bm then do
            let (right, p4) ← parse_expression fuel pm
            return (.expression left_token (some "-") (some right), p4)
          else do
            let (bmu, pmu) ← accept pm .MULTIPLY
            if bmu then do
              let (right, p4) ← parse_expression fuel pmu
              return (.expression left_token (some "*") (some right), p4)
            else do
              let (bd, pd) ← accept pmu .DIVIDE
              if bd then do
                let (right, p4) ← parse_expression fuel pd
                return (.expression left_token (some "/") (some right), p4)
              else return (.expression left_token none none, pd)
      else .error (parser_error p3 "expression")

/-- C `parse_condition`: a left expression, then a mandatory comparator
(`>`, `<` or `=`) and a right expression; otherwise the fatal
`condition` parse error. -/
def parse_condition : Nat → Parser → Except ParseError (ASTNode × Parser)
  | 0, _ => .error .out_of_fuel
  | fuel+1, p => do
    let (left_node, p1) ← parse_expression fuel p
    let (bg, pg) ← accept p1 .GREATER
    if bg then do
      let (right, p2) ← parse_expression fuel pg
      return (.condition left_node ">" right, p2)
    else do
      let (bl, pl) ← accept pg .LESS
      if bl then do
        let (right, p2) ← parse_expression fuel pl
        return (.condition left_node "<" right, p2)
      else do
        let (be, pe) ← accept pl .EQUAL
        if be then do
          let (right, p2) ← parse_expression fuel pe
          return (.condition left_node "=" right, p2)
        else .error (parser_error pe "condition")

/-- C `parse_statement`: dispatch on the first token (`var`, `if`, `while`,
or an identifier assignment); anything else is the fatal `statement` parse
error.  As in C, the `var` and assignment branches read the current token's
text before the kind check (`strdup` before `expect`). -/
def parse_statement : Nat → Parser → Except ParseError (ASTNode × Parser)
  | 0, _ => .error .out_of_fuel
  | fuel+1, p => do
    let (bv, pv) ← accept p .VAR
    if bv then
      match current_token pv with
      | none => .error .invalid_token_index
      | some t => do
        let p1 ← expect pv .IDENTIFIER
        return (.variable_statement t.value, p1)
    else do
      let (bi, pi0) ← accept pv .IF
      if bi then do
        let p1 ← expect pi0 .LPAREN
        let (condition_node, p2) ← parse_condition fuel p1
        let p3 ← expect p2 .RPAREN
        let p4 ← expect p3 .LBRACE
        let (block_node, p5) ← parse_statement_block fuel p4
        let p6 ← expect p5 .RBRACE
        let (be, p7) ← accept p6 .ELSE
        if be then do
          let p8 ← expect p7 .LBRACE
          let (else_node, p9) ← parse_statement_block fuel p8
          let p10 ← expect p9 .RBRACE
          return (.if_statement condition_node block_node (some else_node), p10)
        else
          return (.if_statement condition_node block_node none, p7)
      else do
        let (bw, pw) ← accept pi0 .WHILE
        if bw then do
          let p1 ← expect pw .LPAREN
          let (condition_node, p2) ← parse_condition fuel p1
          let p3 ← expect p2 .RPAREN
          let p4 ← expect p3 .LBRACE
          let (block_node, p5) ← parse_statement_block fuel p4
          let p6 ← expect p5 .RBRACE
          return (.while_statement condition_node block_node, p6)
        else
          if peek pw .IDENTIFIER then
            match current_token pw with
            | none => .error .invalid_token_index
            | some t => do
              let (_, p1) ← accept pw .IDENTIFIER
              let p2 ← expect p1 .EQUAL
              let (expression_node, p3) ← parse_expression fuel p2
              return (.assignment_statement t.value expression_node, p3)
          else .error (parser_error pw "statement")

/-- The do-while loop of C `parse_statement_block`: parse a statement, and
keep going exactly while a semicolon is accepted. -/
def parse_block_loop : Nat → List ASTNode → Parser →
    Except ParseError (List ASTNode × Parser)
  | 0, _, _ => .error .out_of_fuel
  | fuel+1, acc, p => do
    let (stmt, p1) ← parse_statement fuel p
    let (bs, p2) ← accept p1 .SEMICOLON
    if bs then parse_block_loop fuel (acc ++ [stmt]) p2
    else return (acc ++ [stmt], p2)

/-- C `parse_statement_block`: the statement list (at least one statement)
wrapped in a StatementBlock node. -/
def parse_statement_block : Nat → Parser → Except ParseError (ASTNode × Parser)
  | 0, _ => .error .out_of_fuel
  | fuel+1, p => do
    let (stmts, p1) ← parse_block_loop fuel [] p
    return (.statement_block stmts, p1)

/-- C `parse_program`: one statement block, then the current token must be
`EOF`; otherwise the fatal `program` parse error. -/
def parse_program : Nat → Parser → Except ParseError (ASTNode × Parser)
  | 0, _ => .error .out_of_fuel
  | fuel+1, p => do
    let (block, p1) ← parse_statement_block fuel p
    match current_token p1 with
    | none => .error .invalid_token_index
    | some t =>
      if t.type = .EOF then return (.program block, p1)
      else .error (parser_error p1 "program")

end

/-- C `parse`: run `parse_program` from index 0.  The fuel bound
`2 * tokens.length + 8` exceeds the recursion depth of the C parser on any
token sequence (every two nested calls consume at least one token). -/
def parse (tokens : List Token) : Except ParseError ASTNode :=
  (parse_program (2 * tokens.length + 8) ⟨tokens, 0⟩).map (·.1)

/-- The composed front end on raw source text, as run by both harnesses:
`tokenize` then `parse`.  `none` is the fatal lexer error; `some (.error e)`
the fatal parser error. -/
def parse_source (input : List Char) : Option (Except ParseError ASTNode) :=
  (tokenize input).map parse

/-- Escaping of one character by `write_json_string` in `src/ast/c/ast.c`
(the file-driven serializer): only quote, backslash, newline and tab are
escaped; every other byte, including carriage return and the other control
characters, is copied through raw. -/
def write_json_char (c : Char) : String :=
  if c = '"' then "\\\""
  else if c = '\\' then "\\\\"
  else if c = '\n' then "\\n"
  else if c = '\t' then "\\t"
  else String.mk [c]

/-- The character loop of C `write_json_string`. -/
def write_json_chars : List Char → String
  | [] => ""
  | c :: cs => write_json_char c ++ write_json_chars cs

/-- C `write_json_string` (file-driven mode): quoted, partially escaped
text.  The `indent` parameter exists in the C signature but is unused. -/
def write_json_string (str : String) (indent : Nat) : String :=
  "\"" ++ write_json_chars str.data ++ "\""

/-- C `write_indent`: two spaces per nesting level. -/
def write_indent : Nat → String
  | 0 => ""
  | n + 1 => "  " ++ write_indent n

/-- C `write_token_to_json` (file-driven mode). -/
def write_token_to_json (token : Token) (indent : Nat) : String :=
  "\x7b\n"
  ++ write_indent (indent + 1) ++ "\"type\": " ++ toString token.type.toNat ++ ",\n"
  ++ write_indent (indent + 1) ++ "\"value\": "
  ++ write_json_string token.value (indent + 1) ++ ",\n"
  ++ write_indent (indent + 1) ++ "\"line\": " ++ toString token.line ++ ",\n"
  ++ write_indent (indent + 1) ++ "\"column\": " ++ toString token.column ++ "\n"
  ++ write_indent indent ++ "\x7d"

mutual

/-- C `write_ast_to_json` (file-driven mode): a `NULL` node is written as
`null`; otherwise an object with the numeric `type` tag and the per-variant
`data` object, pretty-printed with `write_indent`. -/
def write_ast_to_json : Option ASTNode → Nat → String
  | none, _ => "null"
  | some (.program block), indent =>
      "\x7b\n" ++ write_indent (indent + 1) ++ "\"type\": "
      ++ toString (ASTNode.type_tag (.program block)) ++ ",\n"
      ++ write_indent (indent + 1) ++ "\"data\": \x7b\n"
      ++ write_indent (indent + 2) ++ "\"block\": "
      ++ write_ast_to_json (some block) (indent + 2) ++ "\n"
      ++ write_indent (indent + 1) ++ "\x7d"
      ++ "\n" ++ write_indent indent ++ "\x7d"
  | some (.statement_block stmts), indent =>
      "\x7b\n" ++ write_indent (indent + 1) ++ "\"type\": "
      ++ toString (ASTNode.type_tag (.statement_block stmts)) ++ ",\n"
      ++ write_indent (indent + 1) ++ "\"data\": \x7b\n"
      ++ write_indent (indent + 2) ++ "\"statements\": "
      ++ write_statement_list_to_json stmts (indent + 2) ++ "\n"
      ++ write_indent (indent + 1) ++ "\x7d"
      ++ "\n" ++ write_indent indent ++ "\x7d"
  | some (.variable_statement identifier), indent =>
      "\x7b\n" ++ write_indent (indent + 1) ++ "\"type\": "
      ++ toString (ASTNode.type_tag (.variable_statement identifier)) ++ ",\n"
      ++ write_indent (indent + 1) ++ "\"data\": \x7b\n"
      ++ write_indent (indent + 2) ++ "\"identifier\": "
      ++ write_json_string identifier (indent + 2) ++ "\n"
      ++ write_indent (indent + 1) ++ "\x7d"
      ++ "\n" ++ write_indent indent ++ "\x7d"
  | some (.if_statement condition block else_block), indent =>
      "\x7b\n" ++ write_indent (indent + 1) ++ "\"type\": "
      ++ toString (ASTNode.type_tag (.if_statement condition block else_block)) ++ ",\n"
      ++ write_indent (indent + 1) ++ "\"data\": \x7b\n"
      ++ write_indent (indent + 2) ++ "\"condition\": "
      ++ write_ast_to_json (some condition) (indent + 2) ++ ",\n"
      ++ write_indent (indent + 2) ++ "\"block\": "
      ++ write_ast_to_json (some block) (indent + 2) ++ ",\n"
      ++ write_indent (indent + 2) ++ "\"elseBlock\": "
      ++ write_ast_to_json else_block (indent + 2) ++ "\n"
      ++ write_indent (indent + 1) ++ "\x7d"
      ++ "\n" ++ write_indent indent ++ "\x7d"
  | some (.while_statement condition block), indent =>
      "\x7b\n" ++ write_indent (indent + 1) ++ "\"type\": "
      ++ toString (ASTNode.type_tag (.while_statement condition block)) ++ ",\n"
      ++ write_indent (indent + 1) ++ "\"data\": \x7b\n"
      ++ write_indent (indent + 2) ++ "\"condition\": "
      ++ write_ast_to_json (some condition) (indent + 2) ++ ",\n"
      ++ write_indent (indent + 2) ++ "\"block\": "
      ++ write_ast_to_json (some block) (indent + 2) ++ "\n"
      ++ write_indent (indent + 1) ++ "\x7d"
      ++ "\n" ++ write_indent indent ++ "\x7d"
  | some (.assignment_statement identifier value), indent =>
      "\x7b\n" ++ write_indent (indent + 1) ++ "\"type\": "
      ++ toString (ASTNode.type_tag (.assignment_statement identifier value)) ++ ",\n"
      ++ write_indent (indent + 1) ++ "\"data\": \x7b\n"
      ++ write_indent (indent + 2) ++ "\"identifier\": "
      ++ write_json_string identifier (indent + 2) ++ ",\n"
      ++ write_indent (indent + 2) ++ "\"value\": "
      ++ write_ast_to_json (some value) (indent + 2) ++ "\n"
      ++ write_indent (indent + 1) ++ "\x7d"
      ++ "\n" ++ write_indent indent ++ "\x7d"
  | some (.condition left operator right), indent =>
      "\x7b\n" ++ write_indent (indent + 1) ++ "\"type\": "
      ++ toString (ASTNode.type_tag (.condition left operator right)) ++ ",\n"
      ++ write_indent (indent + 1) ++ "\"data\": \x7b\n"
      ++ write_indent (indent + 2) ++ "\"left\": "
      ++ write_ast_to_json (some left) (indent + 2) ++ ",\n"
      ++ write_indent (indent + 2) ++ "\"operator\": "
      ++ write_json_string operator (indent + 2) ++ ",\n"
      ++ write_indent (indent + 2) ++ "\"right\": "
      ++ write_ast_to_json (some right) (indent + 2) ++ "\n"
      ++ write_indent (indent + 1) ++ "\x7d"
      ++ "\n" ++ write_indent indent ++ "\x7d"
  | some (.expression left_token operator right), indent =>
      "\x7b\n" ++ write_indent (indent + 1) ++ "\"type\": "
      ++ toString (ASTNode.type_tag (.expression left_token operator right)) ++ ",\n"
      ++ write_indent (indent + 1) ++ "\"data\": \x7b\n"
      ++ write_indent (indent + 2) ++ "\"leftToken\": "
      ++ write_token_to_json left_token (indent + 2) ++ ",\n"
      ++ write_indent (indent + 2) ++ "\"operator\": "
      ++ (match operator with
          | some op => write_json_string op (indent + 2)
          | none => "null") ++ ",\n"
      ++ write_indent (indent + 2) ++ "\"right\": "
      ++ write_ast_to_json right (indent + 2) ++ "\n"
      ++ write_indent (indent + 1) ++ "\x7d"
      ++ "\n" ++ write_indent indent ++ "\x7d"

/-- The loop body of C `write_statement_list_to_json`: one line per
statement, a comma after every statement except the last. -/
def write_statement_list_items : List ASTNode → Nat → String
  | [], _ => ""
  | [x], indent =>
      write_indent (indent + 1) ++ write_ast_to_json (some x) (indent + 1) ++ "\n"
  | x :: y :: xs, indent =>
      write_indent (indent + 1) ++ write_ast_to_json (some x) (indent + 1) ++ ",\n"
      ++ write_statement_list_items (y :: xs) indent

/-- C `write_statement_list_to_json` (file-driven mode). -/
def write_statement_list_to_json (list : List ASTNode) (indent : Nat) : String :=
  "[\n" ++ write_statement_list_items list indent ++ write_indent indent ++ "]"

end

/-- Hex digit character used by the `\u%04x` escape (lowercase, as
`sprintf` renders it). -/
def hex_digit (n : Nat) : Char :=
  if n < 10 then Char.ofNat (48 + n) else Char.ofNat (87 + n)

/-- The `\u%04x` escape of `json_append_escaped_string` for a control
character (the C code reaches it only when `c < 32`, so the two high hex
digits are `00`). -/
def u_escape (c : Char) : String :=
  "\\u00" ++ String.mk [hex_digit (c.toNat / 16), hex_digit (c.toNat % 16)]

/-- Escaping of one character by `json_append_escaped_string` in
`src/ast-wasm/c/wasm_ast.c` (the embeddable serializer): quote, backslash,
newline, tab, carriage return, backspace and form feed get short escapes,
every other control character below 32 a `\u` escape, everything else is
copied raw. -/
def json_escape_char (c : Char) : String :=
  if c = '"' then "\\\""
  else if c = '\\' then "\\\\"
  else if c = '\n' then "\\n"
  else if c = '\t' then "\\t"
  else if c = '\r' then "\\r"
  else if c = Char.ofNat 8 then "\\b"
  else if c = Char.ofNat 12 then "\\f"
  else if c.toNat < 32 then u_escape c
  else String.mk [c]

/-- The character loop of C `json_append_escaped_string`. -/
def json_escape_chars : List Char → String
  | [] => ""
  | c :: cs => json_escape_char c ++ json_escape_chars cs

/-- C `json_append_escaped_string` (embeddable mode): quoted, fully escaped
text. -/
def json_append_escaped_string (str : String) : String :=
  "\"" ++ json_escape_chars str.data ++ "\""

/-- C `json_append_int` (`sprintf "%d"`). -/
def json_append_int (n : Nat) : String := toString n

/-- C `serialize_token` (embeddable mode); the whitespace is the literal
text of the C `json_append` calls. -/
def serialize_token (token : Token) : String :=
  "\x7b\n    \"type\": " ++ json_append_int token.type.toNat
  ++ ",\n    \"value\": " ++ json_append_escaped_string token.value
  ++ ",\n    \"line\": " ++ json_append_int token.line
  ++ ",\n    \"column\": " ++ json_append_int token.column
  ++ "\n  \x7d"

mutual

/-- C `serialize_ast` (embeddable mode): the same object shape as the
file-driven serializer, but appended to the in-memory buffer and with
fixed literal indentation. -/
def serialize_ast : Option ASTNode → String
  | none => "null"
  | some (.program block) =>
      "\x7b\n  \"type\": " ++ json_append_int (ASTNode.type_tag (.program block))
      ++ ",\n  \"data\": " ++ "\x7b\n    \"block\": "
      ++ serialize_ast (some block) ++ "\n  \x7d" ++ "\n\x7d"
  | some (.statement_block stmts) =>
      "\x7b\n  \"type\": " ++ json_append_int (ASTNode.type_tag (.statement_block stmts))
      ++ ",\n  \"data\": " ++ "\x7b\n    \"statements\": "
      ++ serialize_statement_list stmts ++ "\n  \x7d" ++ "\n\x7d"
  | some (.variable_statement identifier) =>
      "\x7b\n  \"type\": " ++ json_append_int (ASTNode.type_tag (.variable_statement identifier))
      ++ ",\n  \"data\": " ++ "\x7b\n    \"identifier\": "
      ++ json_append_escaped_string identifier ++ "\n  \x7d" ++ "\n\x7d"
  | some (.if_statement condition block else_block) =>
      "\x7b\n  \"type\": "
      ++ json_append_int (ASTNode.type_tag (.if_statement condition block else_block))
      ++ ",\n  \"data\": " ++ "\x7b\n    \"condition\": "
      ++ serialize_ast (some condition)
      ++ ",\n    \"block\": " ++ serialize_ast (some block)
      ++ ",\n    \"elseBlock\": " ++ serialize_ast else_block
      ++ "\n  \x7d" ++ "\n\x7d"
  | some (.while_statement condition block) =>
      "\x7b\n  \"type\": "
      ++ json_append_int (ASTNode.type_tag (.while_statement condition block))
      ++ ",\n  \"data\": " ++ "\x7b\n    \"condition\": "
      ++ serialize_ast (some condition)
      ++ ",\n    \"block\": " ++ serialize_ast (some block)
      ++ "\n  \x7d" ++ "\n\x7d"
  | some (.assignment_statement identifier value) =>
      "\x7b\n  \"type\": "
      ++ json_append_int (ASTNode.type_tag (.assignment_statement identifier value))
      ++ ",\n  \"data\": " ++ "\x7b\n    \"identifier\": "
      ++ json_append_escaped_string identifier
      ++ ",\n    \"value\": " ++ serialize_ast (some value)
      ++ "\n  \x7d" ++ "\n\x7d"
  | some (.condition left operator right) =>
      "\x7b\n  \"type\": "
      ++ json_append_int (ASTNode.type_tag (.condition left operator right))
      ++ ",\n  \"data\": " ++ "\x7b\n    \"left\": "
      ++ serialize_ast (some left)
      ++ ",\n    \"operator\": " ++ json_append_escaped_string operator
      ++ ",\n    \"right\": " ++ serialize_ast (some right)
      ++ "\n  \x7d" ++ "\n\x7d"
  | some (.expression left_token operator right) =>
      "\x7b\n  \"type\": "
      ++ json_append_int (ASTNode.type_tag (.expression left_token operator right))
      ++ ",\n  \"data\": " ++ "\x7b\n    \"leftToken\": "
      ++ serialize_token left_token
      ++ ",\n    \"operator\": "
      ++ (match operator with
          | some op => json_append_escaped_string op
          | none => "null")
      ++ ",\n    \"right\": " ++ serialize_ast right
      ++ "\n  \x7d" ++ "\n\x7d"

/-- The loop body of C `serialize_statement_list`: four literal spaces, the
statement, a comma after every statement except the last. -/
def serialize_statement_list_items : List ASTNode → String
  | [] => ""
  | [x] => "    " ++ serialize_ast (some x) ++ "\n"
  | x :: y :: xs =>
      "    " ++ serialize_ast (some x) ++ ",\n"
      ++ serialize_statement_list_items (y :: xs)

/-- C `serialize_statement_list` (embeddable mode). -/
def serialize_statement_list (list : List ASTNode) : String :=
  "[\n" ++ serialize_statement_list_items list ++ "  ]"

end

/-- Whitespace normalization used to compare the two serializers "ignoring
incidental whitespace": drop every space and newline character.  Both
serializers place all their own spaces and newlines outside string values
(inside string values a raw newline never survives escaping), so this
erases exactly the formatting differences between the two modes. -/
def strip_ws (s : String) : List Char :=
  s.data.filter (fun c => !(c = ' ' || c = '\n'))

/-- Characters that the two escaping routines (`write_json_char` and
`json_escape_char`) treat identically: printable characters (code 32 and
above) plus newline and tab.  Carriage return, backspace, form feed and the
other control characters are escaped by the embeddable mode only. -/
def safe_char (c : Char) : Bool :=
  decide (32 ≤ c.toNat) || c = '\n' || c = '\t'

/-- A string all of whose characters escape identically in both modes. -/
def safe_string (s : String) : Bool := s.data.all safe_char

mutual

/-- All string values embedded in the tree (identifiers, operators, token
texts) consist of characters that both serializers escape identically. -/
def ASTNode.safe_strings : ASTNode → Bool
  | .program block => block.safe_strings
  | .statement_block stmts => safe_strings_list stmts
  | .variable_statement identifier => safe_string identifier
  | .if_statement condition block else_block =>
      condition.safe_strings && block.safe_strings && safe_strings_opt else_block
  | .while_statement condition block =>
      condition.safe_strings && block.safe_strings
  | .assignment_statement identifier value =>
      safe_string identifier && value.safe_strings
  | .condition left operator right =>
      left.safe_strings && safe_string operator && right.safe_strings
  | .expression left_token operator right =>
      safe_string left_token.value
      && (match operator with | some op => safe_string op | none => true)
      && safe_strings_opt right

/-- `ASTNode.safe_strings` over an optional node. -/
def safe_strings_opt : Option ASTNode → Bool
  | none => true
  | some node => node.safe_strings

/-- `ASTNode.safe_strings` over a statement list. -/
def safe_strings_list : List ASTNode → Bool
  | [] => true
  | x :: xs => x.safe_strings && safe_strings_list xs

end

/-- One full state of the C scanning loop of `tokenize`: the state machine
state, the position counters, and the not-yet-consumed input
(`input[i ..]`). -/
structure LoopSt where
  state : TokState
  line : Nat
  column : Nat
  rest : List Char

/-- Result of one iteration of the C scanning loop: continue with updated
state (emitting zero or more tokens), stop with the fatal lexical error, or
leave the loop because the input is exhausted. -/
inductive StepResult where
  | cont (emitted : List Token) (s : LoopSt)
  | lexError
  | done (line column : Nat)

/-- One iteration of the `while (i < input_len)` loop of `tokenize`,
literally: closing a multi-character token does not consume the current
character (the `.cont` state keeps `c :: rest`), exactly as the C code
re-examines `input[i]` in the searching state on the next iteration. -/
def tokenize_step : LoopSt → StepResult
  | ⟨_, line, column, []⟩ => .done line column
  | ⟨.searching, line, column, c :: rest⟩ =>
      let p := update_position c line column
      match state_searching_step c line column with
      | .emit t => .cont [t] ⟨.searching, p.1, p.2, rest⟩
      | .enterString => .cont [] ⟨.stringState line column ['"'], p.1, p.2, rest⟩
      | .enterNumber => .cont [] ⟨.numberState line column [c], p.1, p.2, rest⟩
      | .enterIdentifier => .cont [] ⟨.identifierState line column [c], p.1, p.2, rest⟩
      | .skip => .cont [] ⟨.searching, p.1, p.2, rest⟩
      | .err => .lexError
  | ⟨.identifierState sl sc acc, line, column, c :: rest⟩ =>
      if is_alpha c then
        .cont [] ⟨.identifierState sl sc (acc ++ [c]), line, column, rest⟩
      else
        let v := String.mk acc
        .cont [⟨get_keyword_type v, v, sl, sc⟩] ⟨.searching, line, column, c :: rest⟩
  | ⟨.numberState sl sc acc, line, column, c :: rest⟩ =>
      if is_digit c then
        .cont [] ⟨.numberState sl sc (acc ++ [c]), line, column, rest⟩
      else
        .cont [⟨.NUMBER, String.mk acc, sl, sc⟩] ⟨.searching, line, column, c :: rest⟩
  | ⟨.stringState sl sc acc, line, column, c :: rest⟩ =>
      if c = '"' then
        .cont [⟨.STRING, String.mk acc, sl, sc⟩] ⟨.searching, line, column, rest⟩
      else
        .cont [] ⟨.stringState sl sc (acc ++ [c]), line, column, rest⟩

/-- Run the scanning loop for at most `fuel` iterations.  The outer `none`
means the iteration budget ran out; `some none` is the fatal lexical error;
`some (some ts)` is normal completion with the tokens emitted from here on
(the `EOF` token appended after the loop included). -/
def tokenize_run : Nat → LoopSt → Option (Option (List Token))
  | 0, _ => none
  | fuel + 1, s =>
      match tokenize_step s with
      | .done line column => some (some [⟨.EOF, "EOF", line, column⟩])
      | .lexError => some none
      | .cont emitted s2 => (tokenize_run fuel s2).map (fun r => r.map (emitted ++ ·))

/-- Extra iteration allowance for the loop-iteration bound of `tokenize`:
closing an identifier or number token is the one loop iteration that does
not consume a character, and it can happen at most once before the next
consuming iteration. -/
def state_extra : TokState → Nat
  | .identifierState _ _ _ => 1
  | .numberState _ _ _ => 1
  | _ => 0

/-- A character that matches some rule of the searching state: quote,
single-character token, digit, letter/underscore, or whitespace.  `tokenize`
raises its fatal `Unexpected character` error exactly on characters outside
this set. -/
def legal_char (c : Char) : Bool :=
  c = '"' || c = '(' || c = ')' || c = ';' || c = lbrace_char || c = rbrace_char
  || c = '+' || c = '-' || c = '*' || c = '/' || c = '>' || c = '<' || c = '='
  || is_digit c || is_alpha c || is_whitespace c

end AstBench

namespace SortBench

/-- The size bound of the global arrays in `src/sort/c/sort.c`. -/
def MAX_DATA_SIZE : Nat := 100000

/-- Swap of two array cells (`temp = a[i]; a[i] = a[j]; a[j] = temp`), on
the list modelling the C int array.  The C values are modelled as `Nat`:
the claims restrict the data to nonnegative integers. -/
def list_swap (l : List Nat) (i j : Nat) : List Nat :=
  (l.set i (l.getD j 0)).set j (l.getD i 0)

/-- The inner loop of C `bubble_sort`: `for (j = 0; j < size - i - 1; j++)`
with an adjacent compare-and-swap. -/
def bubble_inner (data : List Nat) (size i j : Nat) : List Nat :=
  if j < size - i - 1 then
    bubble_inner
      (if data.getD j 0 > data.getD (j + 1) 0 then list_swap data j (j + 1) else data)
      size i (j + 1)
  else data
termination_by size - i - 1 - j

/-- The outer loop of C `bubble_sort`: `for (i = 0; i < size; i++)`. -/
def bubble_outer (data : List Nat) (size i : Nat) : List Nat :=
  if i < size then bubble_outer (bubble_inner data size i 0) size (i + 1) else data
termination_by size - i

/-- C `bubble_sort` (the harness passes the array together with its
length). -/
def bubble_sort (data : List Nat) : List Nat :=
  bubble_outer data data.length 0

/-- The histogram loop of C `counting_sort_for_radix`:
`count[(arr[i] / exp) % 10]++` in input order. -/
def radix_count : List Nat → Nat → List Nat → List Nat
  | [], _, count => count
  | x :: rest, exp, count =>
      radix_count rest exp (count.set ((x / exp) % 10) (count.getD ((x / exp) % 10) 0 + 1))

/-- The prefix-sum loop of C `counting_sort_for_radix`:
`for (i = 1; i < 10; i++) count[i] += count[i-1]`. -/
def radix_prefix (count : List Nat) (i : Nat) : List Nat :=
  if i < 10 then
    radix_prefix (count.set i (count.getD i 0 + count.getD (i - 1) 0)) (i + 1)
  else count
termination_by 10 - i

/-- The placement loop of C `counting_sort_for_radix`, iterating the source
index downward (`for (i = size - 1; i >= 0; i--)`): the argument `k` is
`i + 1`, so `k = 0` is loop exit.  Each element is written at
`count[digit] - 1` and that counter is decremented. -/
def radix_place (arr : List Nat) (exp : Nat) :
    Nat → List Nat → List Nat → List Nat × List Nat
  | 0, output, count => (output, count)
  | k + 1, output, count =>
      let x := arr.getD k 0
      let d := (x / exp) % 10
      radix_place arr exp k
        (output.set (count.getD d 0 - 1) x)
        (count.set d (count.getD d 0 - 1))

/-- C `counting_sort_for_radix`: histogram, prefix sums, backward stable
placement into `output`, which is then copied back over the array.  The C
local `output` array is uninitialized; it is modelled as zeros (every cell
with an index below the array length is overwritten by the placement
loop). -/
def counting_sort_for_radix (arr : List Nat) (exp : Nat) : List Nat :=
  let count := radix_count arr exp (List.replicate 10 0)
  let count2 := radix_prefix count 1
  (radix_place arr exp arr.length (List.replicate arr.length 0) count2).1

/-- The maximum-finding loop of C `radix_sort` (start from `data[0]`, scan
from index 1). -/
def find_max : List Nat → Nat → Nat
  | [], m => m
  | x :: rest, m => find_max rest (if x > m then x else m)

/-- The digit loop of C `radix_sort`:
`for (exp = 1; max / exp > 0; exp *= 10)`. -/
def radix_loop (data : List Nat) (max exp : Nat) : List Nat :=
  if 0 < max / exp then radix_loop (counting_sort_for_radix data exp) max (exp * 10)
  else data
termination_by max / exp
decreasing_by
  rename_i h
  have hexp : 0 < exp := by
    by_contra hc
    have : exp = 0 := by omega
    simp [this] at h
  calc max / (exp * 10) = max / exp / 10 := by
        rw [Nat.div_div_eq_div_mul]
    _ < max / exp := Nat.div_lt_self h (by omega)

/-- C `radix_sort`: find the maximum, then one counting-sort pass per
decimal digit. -/
def radix_sort (data : List Nat) : List Nat :=
  radix_loop data (find_max (data.drop 1) (data.getD 0 0)) 1

/-- The scan loop of C `partition` (Lomuto, pivot `arr[high]`).  The C
index `i` starts at `low - 1`, which can be `-1`; it is represented here
as `i1 = i + 1`, so the swap `arr[i] ↔ arr[j]` performed after `i++`
becomes a swap at `i1` followed by incrementing `i1`, and the final
`return i + 1` returns `i1`. -/
def partition_loop (arr : List Nat) (pivot low high i1 j : Nat) : List Nat × Nat :=
  if j < high then
    if arr.getD j 0 ≤ pivot then
      partition_loop (list_swap arr i1 j) pivot low high (i1 + 1) (j + 1)
    else
      partition_loop arr pivot low high i1 (j + 1)
  else (arr, i1)
termination_by high - j

/-- C `partition`: scan, then swap the pivot into place and return its
index. -/
def partition (arr : List Nat) (low high : Nat) : List Nat × Nat :=
  let pivot := arr.getD high 0
  let (arr2, i1) := partition_loop arr pivot low high low low
  (list_swap arr2 i1 high, i1)

/-- C `quick_sort_recursive`, with an explicit recursion bound (the C
recursion terminates because the partition index stays within
`[low, high]`; that bound is proved separately below, so the fuel branch
returning the array unchanged is never reached when the bound passed by
`quick_sort` is used).  The C indices are ints; `pi - 1` at `pi = 0`
(reachable only with `low = 0`) makes the first recursive call
`(0, -1)` in C and `(0, 0)` here, both of which return immediately. -/
def quick_sort_recursive : Nat → List Nat → Nat → Nat → List Nat
  | 0, arr, _, _ => arr
  | fuel + 1, arr, low, high =>
      if low < high then
        let pr := partition arr low high
        let arr3 := quick_sort_recursive fuel pr.1 low (pr.2 - 1)
        quick_sort_recursive fuel arr3 (pr.2 + 1) high
      else arr

/-- C `quick_sort`: sort the whole array (`high = size - 1`). -/
def quick_sort (data : List Nat) : List Nat :=
  quick_sort_recursive (data.length + 1) data 0 (data.length - 1)

/-- C `check_results`: elementwise comparison of the sorted array against
the quick-sorted reference (`1` iff all `size` positions agree). -/
def check_results (data expected : List Nat) (size : Nat) : Bool :=
  decide (∀ i < size, data.getD i 0 = expected.getD i 0)

/-- Analysis: the half-open index segment `[a, b)` of a list, used to state
what the in-place loops do to parts of the array. -/
def slice (a b : Nat) (l : List Nat) : List Nat :=
  (l.drop a).take (b - a)

/-- Analysis: the decimal digit `(x / exp) % 10` that a counting-sort pass
keys on. -/
def digit (exp x : Nat) : Nat := x / exp % 10

/-- Analysis: one functional bubble pass limited to `n` adjacent
compare-swaps, the behaviour of the inner loop of `bubble_sort` on the
scanned prefix. -/
def bpassN : Nat → List Nat → List Nat
  | 0, l => l
  | _ + 1, [] => []
  | _ + 1, [x] => [x]
  | n + 1, x :: y :: rest =>
      if x > y then y :: bpassN n (x :: rest) else x :: bpassN n (y :: rest)

/-- Analysis: the stable bucket decomposition by digit that one counting
sort pass produces — all elements with digit 0 in input order, then digit
1, and so on. -/
def buckets (arr : List Nat) (exp : Nat) : List Nat :=
  (List.range 10).flatMap (fun d => arr.filter (fun x => digit exp x = d))

/-- Analysis: how many elements of the list have the given digit. -/
def count_eq (arr : List Nat) (exp d : Nat) : Nat :=
  (arr.filter (fun x => digit exp x = d)).length

/-- Analysis: how many elements of the list have a smaller digit. -/
def count_lt (arr : List Nat) (exp d : Nat) : Nat :=
  (arr.filter (fun x => digit exp x < d)).length

end SortBench

/-- Maps an operator token kind to the operator string stored by
`parse_expression` in the corresponding branch (`"+"`, `"-"`, `"*"`,
`"/"`). -/
def AstBench.operator_lexeme : AstBench.TokenType → Option String
  | .PLUS => some "+"
  | .MINUS => some "-"
  | .MULTIPLY => some "*"
  | .DIVIDE => some "/"
  | _ => none

open AstBench SortBench

/-- C1: the claim states that tokenizing `"var x"` yields
`[VAR, IDENTIFIER("x"), EOF]` with `x` at line 1, column 5, and that no
token is lost.  The code disagrees: the scanning loop exits at end of input
without closing the pending identifier state, so the `x` token is dropped
entirely, and because the position counters are only advanced in the
searching state the appended `EOF` carries column 4.  This theorem
evaluates `tokenize` at the claim's own input and exhibits the actual
output `[VAR("var")@1:1, EOF@1:4]`. -/
theorem C1_tokenize_var_x_drops_trailing_identifier :
    tokenize "var x".toList =
      some [⟨.VAR, "var", 1, 1⟩, ⟨.EOF, "EOF", 1, 4⟩] := by decide

/-- C2: the claim states that the line/column counter advances exactly once
per consumed character and that every multi-character token records the
true position of its first character.  The code advances the counter only
in the searching state, so characters consumed while scanning an
identifier, number or string do not move it.  On `"ab c("` the second
identifier `c` (input index 3, true position 1:4 as computed by the
source's own `get_location_from_index`) is recorded at 1:3, and the
parenthesis (input index 4, true position 1:5) is recorded at 1:4. -/
theorem C2_positions_only_advance_in_searching_state :
    tokenize "ab c(".toList =
      some [⟨.IDENTIFIER, "ab", 1, 1⟩, ⟨.IDENTIFIER, "c", 1, 3⟩,
            ⟨.LPAREN, "(", 1, 4⟩, ⟨.EOF, "EOF", 1, 5⟩] ∧
    get_location_from_index 3 "ab c(".toList = (1, 4) ∧
    get_location_from_index 4 "ab c(".toList = (1, 5) := by decide

/-- Helper: a primary token (NUMBER, STRING or IDENTIFIER) followed by a
non-operator token parses as a terminal Expression node, leaving the cursor
on the following token. -/
theorem parse_expression_terminal_eq
    (ts : List Token) (i fuel : Nat) (c t : Token)
    (hc : ts[i]? = some c)
    (hct : c.type = .NUMBER ∨ c.type = .STRING ∨ c.type = .IDENTIFIER)
    (ht : ts[i+1]? = some t)
    (htp : t.type ≠ .PLUS) (htm : t.type ≠ .MINUS)
    (htmu : t.type ≠ .MULTIPLY) (htd : t.type ≠ .DIVIDE) :
    parse_expression (fuel+1) ⟨ts, i⟩ = .ok (.expression c none none, ⟨ts, i+1⟩) := by
  have hlen : i + 1 < ts.length := (List.getElem?_eq_some.mp ht).1
  have hge : ¬ (i + 1 ≥ ts.length) := by omega
  have hcur : current_token ⟨ts, i⟩ = some c := hc
  have hcur2 : current_token ⟨ts, i+1⟩ = some t := ht
  rcases hct with h | h | h <;>
    simp [parse_expression, hcur, accept, h, next_token, hge, bind, Except.bind,
          Except.map, pure, Except.pure, hcur2, htp, htm, htmu, htd]

/-- Helper: a primary token followed by an arithmetic operator parses as an
Expression whose right child is whatever `parse_expression` produces two
tokens further on — the right operand is parsed by the recursive call, so
chains associate to the right. -/
theorem parse_expression_chain_eq
    (ts : List Token) (i fuel : Nat) (a o : Token) (r : ASTNode) (p2 : Parser)
    (ha : ts[i]? = some a)
    (hat : a.type = .NUMBER ∨ a.type = .STRING ∨ a.type = .IDENTIFIER)
    (ho : ts[i+1]? = some o)
    (hot : o.type = .PLUS ∨ o.type = .MINUS ∨ o.type = .MULTIPLY ∨ o.type = .DIVIDE)
    (hlen : i + 2 < ts.length)
    (hrec : parse_expression fuel ⟨ts, i + 2⟩ = .ok (r, p2)) :
    parse_expression (fuel+1) ⟨ts, i⟩ =
      .ok (.expression a (operator_lexeme o.type) (some r), p2) := by
  have hlen1 : i + 1 < ts.length := (List.getElem?_eq_some.mp ho).1
  have hge1 : ¬ (i + 1 ≥ ts.length) := by omega
  have hge2 : ¬ (i + 1 + 1 ≥ ts.length) := by omega
  have hcur : current_token ⟨ts, i⟩ = some a := ha
  have hcur2 : current_token ⟨ts, i+1⟩ = some o := ho
  have h12 : i + 1 + 1 = i + 2 := by omega
  rcases hat with h | h | h <;> rcases hot with g | g | g | g <;>
    simp [parse_expression, hcur, accept, h, g, next_token, hge1, hge2, bind,
          Except.bind, Except.map, pure, Except.pure, hcur2, h12, hrec,
          operator_lexeme]

/-- C4: expression parsing is right-associative with flat precedence.  For
any token sequence carrying `a op1 b op2 c` (primaries `a`, `b`, `c`; any
of the four arithmetic operators) followed by a non-operator token,
`parse_expression` builds `a op1 (b op2 c)` and stops after `c`.  The
claim's own concrete example, however, fails in the code: tokenizing the
raw text `"x=1+2+3"` drops the trailing `3` (the end-of-input flush bug of
C1), so the full pipeline aborts with the `expression` ParseError at the
`EOF` token instead of producing the chain `1 + (2 + 3)`; the second
conjunct evaluates that failing input. -/
theorem C4_parse_expression_right_associative
    (ts : List Token) (i fuel : Nat) (a o1 b o2 c t : Token)
    (ha : ts[i]? = some a)
    (hat : a.type = .NUMBER ∨ a.type = .STRING ∨ a.type = .IDENTIFIER)
    (ho1 : ts[i+1]? = some o1)
    (ho1t : o1.type = .PLUS ∨ o1.type = .MINUS ∨ o1.type = .MULTIPLY ∨ o1.type = .DIVIDE)
    (hb : ts[i+2]? = some b)
    (hbt : b.type = .NUMBER ∨ b.type = .STRING ∨ b.type = .IDENTIFIER)
    (ho2 : ts[i+3]? = some o2)
    (ho2t : o2.type = .PLUS ∨ o2.type = .MINUS ∨ o2.type = .MULTIPLY ∨ o2.type = .DIVIDE)
    (hc : ts[i+4]? = some c)
    (hct : c.type = .NUMBER ∨ c.type = .STRING ∨ c.type = .IDENTIFIER)
    (ht : ts[i+5]? = some t)
    (htp : t.type ≠ .PLUS) (htm : t.type ≠ .MINUS)
    (htmu : t.type ≠ .MULTIPLY) (htd : t.type ≠ .DIVIDE) :
    parse_expression (fuel + 3) ⟨ts, i⟩ =
      .ok (.expression a (operator_lexeme o1.type)
            (some (.expression b (operator_lexeme o2.type)
              (some (.expression c none none)))), ⟨ts, i + 5⟩) ∧
    parse_source "x=1+2+3".toList =
      some (.error (.unexpected_symbol "expression" 1 8)) := by
  refine ⟨?_, rfl⟩
  have hterm : parse_expression (fuel+1) ⟨ts, i+4⟩ =
      .ok (.expression c none none, ⟨ts, i+5⟩) :=
    parse_expression_terminal_eq ts (i+4) fuel c t hc hct ht htp htm htmu htd
  have hmid : parse_expression (fuel+2) ⟨ts, i+2⟩ =
      .ok (.expression b (operator_lexeme o2.type)
            (some (.expression c none none)), ⟨ts, i+5⟩) :=
    parse_expression_chain_eq ts (i+2) (fuel+1) b o2 _ _ hb hbt ho2 ho2t
      (List.getElem?_eq_some.mp hc).1 hterm
  exact parse_expression_chain_eq ts i (fuel+2) a o1 _ _ ha hat ho1 ho1t
    (List.getElem?_eq_some.mp hb).1 hmid

/-- Witness for C4 at the token sequence `1 + 2 + 3 EOF`. -/
theorem C4_parse_expression_right_associative_witness :
    parse_expression 3
        ⟨[⟨.NUMBER, "1", 1, 1⟩, ⟨.PLUS, "+", 1, 2⟩, ⟨.NUMBER, "2", 1, 3⟩,
          ⟨.PLUS, "+", 1, 4⟩, ⟨.NUMBER, "3", 1, 5⟩, ⟨.EOF, "EOF", 1, 6⟩], 0⟩ =
      .ok (.expression ⟨.NUMBER, "1", 1, 1⟩ (some "+")
            (some (.expression ⟨.NUMBER, "2", 1, 3⟩ (some "+")
              (some (.expression ⟨.NUMBER, "3", 1, 5⟩ none none)))),
        ⟨[⟨.NUMBER, "1", 1, 1⟩, ⟨.PLUS, "+", 1, 2⟩, ⟨.NUMBER, "2", 1, 3⟩,
          ⟨.PLUS, "+", 1, 4⟩, ⟨.NUMBER, "3", 1, 5⟩, ⟨.EOF, "EOF", 1, 6⟩], 5⟩) ∧
    parse_source "x=1+2+3".toList =
      some (.error (.unexpected_symbol "expression" 1 8)) :=
  C4_parse_expression_right_associative
    [⟨.NUMBER, "1", 1, 1⟩, ⟨.PLUS, "+", 1, 2⟩, ⟨.NUMBER, "2", 1, 3⟩,
     ⟨.PLUS, "+", 1, 4⟩, ⟨.NUMBER, "3", 1, 5⟩, ⟨.EOF, "EOF", 1, 6⟩] 0 0
    ⟨.NUMBER, "1", 1, 1⟩ ⟨.PLUS, "+", 1, 2⟩ ⟨.NUMBER, "2", 1, 3⟩
    ⟨.PLUS, "+", 1, 4⟩ ⟨.NUMBER, "3", 1, 5⟩ ⟨.EOF, "EOF", 1, 6⟩
    rfl (.inl rfl) rfl (.inl rfl) rfl (.inl rfl) rfl (.inl rfl) rfl (.inl rfl)
    rfl (by decide) (by decide) (by decide) (by decide)

/-- Helper: a single-character token emitted by the searching state is one
of the punctuation/operator kinds, never `EOF`. -/
theorem state_searching_step_emit_ne_eof
    (c : Char) (l col : Nat) (t : Token)
    (h : state_searching_step c l col = .emit t) : t.type ≠ .EOF := by
  unfold state_searching_step at h
  by_cases h1 : c = '"'
  · rw [if_pos h1] at h; cases h
  rw [if_neg h1] at h
  by_cases h2 : c = '('
  · rw [if_pos h2] at h; cases h; simp
  rw [if_neg h2] at h
  by_cases h3 : c = ')'
  · rw [if_pos h3] at h; cases h; simp
  rw [if_neg h3] at h
  by_cases h4 : c = ';'
  · rw [if_pos h4] at h; cases h; simp
  rw [if_neg h4] at h
  by_cases h5 : c = lbrace_char
  · rw [if_pos h5] at h; cases h; simp
  rw [if_neg h5] at h
  by_cases h6 : c = rbrace_char
  · rw [if_pos h6] at h; cases h; simp
  rw [if_neg h6] at h
  by_cases h7 : c = '+'
  · rw [if_pos h7] at h; cases h; simp
  rw [if_neg h7] at h
  by_cases h8 : c = '-'
  · rw [if_pos h8] at h; cases h; simp
  rw [if_neg h8] at h
  by_cases h9 : c = '*'
  · rw [if_pos h9] at h; cases h; simp
  rw [if_neg h9] at h
  by_cases h10 : c = '/'
  · rw [if_pos h10] at h; cases h; simp
  rw [if_neg h10] at h
  by_cases h11 : c = '>'
  · rw [if_pos h11] at h; cases h; simp
  rw [if_neg h11] at h
  by_cases h12 : c = '<'
  · rw [if_pos h12] at h; cases h; simp
  rw [if_neg h12] at h
  by_cases h13 : c = '='
  · rw [if_pos h13] at h; cases h; simp
  rw [if_neg h13] at h
  by_cases h14 : is_digit c
  · rw [if_pos h14] at h; cases h
  rw [if_neg h14] at h
  by_cases h15 : is_alpha c
  · rw [if_pos h15] at h; cases h
  rw [if_neg h15] at h
  by_cases h16 : is_whitespace c
  · rw [if_pos h16] at h; cases h
  rw [if_neg h16] at h
  cases h

/-- Helper: `get_keyword_type` classifies a word as a keyword or a generic
identifier, never as `EOF`. -/
theorem get_keyword_type_ne_eof (s : String) : get_keyword_type s ≠ .EOF := by
  unfold get_keyword_type
  repeat' split
  all_goals simp
/-- Helper invariant for C6: every successful run of the scanning loop, from
any state, produces a token list that ends in exactly one `EOF` token (the
one appended after the loop); no token emitted inside the loop has the
`EOF` kind. -/
theorem tokenize_loop_eof_last :
    ∀ (input : List Char) (st : TokState) (line column : Nat) (ts : List Token),
      tokenize_loop st line column input = some ts →
      ∃ ts2 l c, ts = ts2 ++ [⟨.EOF, "EOF", l, c⟩] ∧ ∀ t ∈ ts2, t.type ≠ .EOF := by
  intro input
  induction input with
  | nil =>
    intro st line column ts h
    simp only [tokenize_loop, Option.some_inj] at h
    exact ⟨[], line, column, h.symm, by simp⟩
  | cons c0 rest ih =>
    intro st line column ts h
    cases st with
    | searching =>
      simp only [tokenize_loop] at h
      rcases hss : state_searching_step c0 line column with t2 | _ | _ | _ | _ | _ <;>
        rw [hss] at h
      · obtain ⟨ts0, h0, rfl⟩ := Option.map_eq_some'.mp h
        obtain ⟨ts2, l, c, rfl, hne⟩ := ih _ _ _ _ h0
        refine ⟨t2 :: ts2, l, c, by simp, ?_⟩
        intro t ht
        rcases List.mem_cons.mp ht with rfl | hmem
        · exact state_searching_step_emit_ne_eof _ _ _ _ hss
        · exact hne t hmem
      · exact ih _ _ _ _ h
      · exact ih _ _ _ _ h
      · exact ih _ _ _ _ h
      · exact ih _ _ _ _ h
      · cases h
    | stringState sl sc acc =>
      simp only [tokenize_loop] at h
      by_cases hq : c0 = '"'
      · rw [if_pos hq] at h
        obtain ⟨ts0, h0, rfl⟩ := Option.map_eq_some'.mp h
        obtain ⟨ts2, l, c, rfl, hne⟩ := ih _ _ _ _ h0
        refine ⟨⟨.STRING, String.mk acc, sl, sc⟩ :: ts2, l, c, by simp, ?_⟩
        intro t ht
        rcases List.mem_cons.mp ht with rfl | hmem
        · simp
        · exact hne t hmem
      · rw [if_neg hq] at h
        exact ih _ _ _ _ h
    | numberState sl sc acc =>
      simp only [tokenize_loop] at h
      by_cases hd : is_digit c0
      · rw [if_pos hd] at h
        exact ih _ _ _ _ h
      · rw [if_neg hd] at h
        rcases hss : state_searching_step c0 line column with t2 | _ | _ | _ | _ | _ <;>
          rw [hss] at h
        · obtain ⟨ts0, h0, rfl⟩ := Option.map_eq_some'.mp h
          obtain ⟨ts2, l, c, rfl, hne⟩ := ih _ _ _ _ h0
          refine ⟨⟨.NUMBER, String.mk acc, sl, sc⟩ :: t2 :: ts2, l, c, by simp, ?_⟩
          intro t ht
          rcases List.mem_cons.mp ht with rfl | hmem
          · simp
          rcases List.mem_cons.mp hmem with rfl | hmem2
          · exact state_searching_step_emit_ne_eof _ _ _ _ hss
          · exact hne t hmem2
        all_goals try
          (obtain ⟨ts0, h0, rfl⟩ := Option.map_eq_some'.mp h
           obtain ⟨ts2, l, c, rfl, hne⟩ := ih _ _ _ _ h0
           refine ⟨⟨.NUMBER, String.mk acc, sl, sc⟩ :: ts2, l, c, by simp, ?_⟩
           intro t ht
           rcases List.mem_cons.mp ht with rfl | hmem
           · simp
           · exact hne t hmem)
        cases h
    | identifierState sl sc acc =>
      simp only [tokenize_loop] at h
      by_cases hal : is_alpha c0
      · rw [if_pos hal] at h
        exact ih _ _ _ _ h
      · rw [if_neg hal] at h
        rcases hss : state_searching_step c0 line column with t2 | _ | _ | _ | _ | _ <;>
          rw [hss] at h
        · obtain ⟨ts0, h0, rfl⟩ := Option.map_eq_some'.mp h
          obtain ⟨ts2, l, c, rfl, hne⟩ := ih _ _ _ _ h0
          refine ⟨⟨get_keyword_type (String.mk acc), String.mk acc, sl, sc⟩ :: t2 :: ts2,
            l, c, by simp, ?_⟩
          intro t ht
          rcases List.mem_cons.mp ht with rfl | hmem
          · exact get_keyword_type_ne_eof _
          rcases List.mem_cons.mp hmem with rfl | hmem2
          · exact state_searching_step_emit_ne_eof _ _ _ _ hss
          · exact hne t hmem2
        all_goals try
          (obtain ⟨ts0, h0, rfl⟩ := Option.map_eq_some'.mp h
           obtain ⟨ts2, l, c, rfl, hne⟩ := ih _ _ _ _ h0
           refine ⟨⟨get_keyword_type (String.mk acc), String.mk acc, sl, sc⟩ :: ts2,
             l, c, by simp, ?_⟩
           intro t ht
           rcases List.mem_cons.mp ht with rfl | hmem
           · exact get_keyword_type_ne_eof _
           · exact hne t hmem)
        cases h

/-- C6: for every input on which `tokenize` succeeds, the returned token
sequence contains exactly one `EOF` token and it is the final element: the
sequence decomposes as `ts2 ++ [EOF]` where no token of `ts2` has the
`EOF` kind. -/
theorem C6_eof_token_exactly_once_and_final
    (input : List Char) (ts : List Token)
    (h : tokenize input = some ts) :
    ∃ ts2 l c, ts = ts2 ++ [⟨.EOF, "EOF", l, c⟩] ∧ ∀ t ∈ ts2, t.type ≠ .EOF :=
  tokenize_loop_eof_last input .searching 1 1 ts h

/-- Witness for C6 at the input `"var x"`. -/
theorem C6_eof_token_exactly_once_and_final_witness :
    ∃ ts2 l c,
      [(⟨.VAR, "var", 1, 1⟩ : Token), ⟨.EOF, "EOF", 1, 4⟩] =
        ts2 ++ [⟨.EOF, "EOF", l, c⟩] ∧ ∀ t ∈ ts2, t.type ≠ .EOF :=
  C6_eof_token_exactly_once_and_final "var x".toList
    [⟨.VAR, "var", 1, 1⟩, ⟨.EOF, "EOF", 1, 4⟩] (by decide)

/-- Helper: a single-character token emitted by the searching state never
has the `STRING` kind. -/
theorem state_searching_step_emit_ne_string
    (c : Char) (l col : Nat) (t : Token)
    (h : state_searching_step c l col = .emit t) : t.type ≠ .STRING := by
  unfold state_searching_step at h
  by_cases h1 : c = '"'
  · rw [if_pos h1] at h; cases h
  rw [if_neg h1] at h
  by_cases h2 : c = '('
  · rw [if_pos h2] at h; cases h; simp
  rw [if_neg h2] at h
  by_cases h3 : c = ')'
  · rw [if_pos h3] at h; cases h; simp
  rw [if_neg h3] at h
  by_cases h4 : c = ';'
  · rw [if_pos h4] at h; cases h; simp
  rw [if_neg h4] at h
  by_cases h5 : c = lbrace_char
  · rw [if_pos h5] at h; cases h; simp
  rw [if_neg h5] at h
  by_cases h6 : c = rbrace_char
  · rw [if_pos h6] at h; cases h; simp
  rw [if_neg h6] at h
  by_cases h7 : c = '+'
  · rw [if_pos h7] at h; cases h; simp
  rw [if_neg h7] at h
  by_cases h8 : c = '-'
  · rw [if_pos h8] at h; cases h; simp
  rw [if_neg h8] at h
  by_cases h9 : c = '*'
  · rw [if_pos h9] at h; cases h; simp
  rw [if_neg h9] at h
  by_cases h10 : c = '/'
  · rw [if_pos h10] at h; cases h; simp
  rw [if_neg h10] at h
  by_cases h11 : c = '>'
  · rw [if_pos h11] at h; cases h; simp
  rw [if_neg h11] at h
  by_cases h12 : c = '<'
  · rw [if_pos h12] at h; cases h; simp
  rw [if_neg h12] at h
  by_cases h13 : c = '='
  · rw [if_pos h13] at h; cases h; simp
  rw [if_neg h13] at h
  by_cases h14 : is_digit c
  · rw [if_pos h14] at h; cases h
  rw [if_neg h14] at h
  by_cases h15 : is_alpha c
  · rw [if_pos h15] at h; cases h
  rw [if_neg h15] at h
  by_cases h16 : is_whitespace c
  · rw [if_pos h16] at h; cases h
  rw [if_neg h16] at h
  cases h

/-- Helper: `get_keyword_type` never classifies a word as `STRING`. -/
theorem get_keyword_type_ne_string (s : String) : get_keyword_type s ≠ .STRING := by
  unfold get_keyword_type
  repeat' split
  all_goals simp

/-- Helper invariant for C3: in any successful run of the scanning loop,
every emitted `STRING` token's text is the opening quote followed by the
quote-free characters accumulated in the string state (the C accumulator
starts at the index of the opening quote itself). -/
theorem tokenize_loop_string_tokens :
    ∀ (input : List Char) (st : TokState) (line column : Nat) (ts : List Token),
      tokenize_loop st line column input = some ts →
      (match st with
       | .stringState _ _ acc => ∃ content, acc = '"' :: content ∧ '"' ∉ content
       | _ => True) →
      ∀ t ∈ ts, t.type = .STRING →
        ∃ content, t.value = String.mk ('"' :: content) ∧ '"' ∉ content := by
  intro input
  induction input with
  | nil =>
    intro st line column ts h _ t ht htt
    simp only [tokenize_loop, Option.some_inj] at h
    subst h
    simp at ht
    subst ht
    cases htt
  | cons c0 rest ih =>
    intro st line column ts h hinv t ht htt
    cases st with
    | searching =>
      simp only [tokenize_loop] at h
      rcases hss : state_searching_step c0 line column with t2 | _ | _ | _ | _ | _ <;>
        rw [hss] at h
      · obtain ⟨ts0, h0, rfl⟩ := Option.map_eq_some'.mp h
        rcases List.mem_cons.mp ht with rfl | hmem
        · exact absurd htt (state_searching_step_emit_ne_string _ _ _ _ hss)
        · exact ih _ _ _ _ h0 trivial t hmem htt
      · exact ih _ _ _ _ h ⟨[], rfl, by simp⟩ t ht htt
      · exact ih _ _ _ _ h trivial t ht htt
      · exact ih _ _ _ _ h trivial t ht htt
      · exact ih _ _ _ _ h trivial t ht htt
      · cases h
    | stringState sl sc acc =>
      simp only [tokenize_loop] at h
      by_cases hq : c0 = '"'
      · rw [if_pos hq] at h
        obtain ⟨ts0, h0, rfl⟩ := Option.map_eq_some'.mp h
        rcases List.mem_cons.mp ht with rfl | hmem
        · obtain ⟨content, rfl, hfree⟩ := hinv
          exact ⟨content, rfl, hfree⟩
        · exact ih _ _ _ _ h0 trivial t hmem htt
      · rw [if_neg hq] at h
        obtain ⟨content, rfl, hfree⟩ := hinv
        refine ih _ _ _ _ h ⟨content ++ [c0], by simp, ?_⟩ t ht htt
        simp [hfree]
        exact fun hcontra => hq hcontra.symm
    | numberState sl sc acc =>
      simp only [tokenize_loop] at h
      by_cases hd : is_digit c0
      · rw [if_pos hd] at h
        exact ih _ _ _ _ h trivial t ht htt
      · rw [if_neg hd] at h
        rcases hss : state_searching_step c0 line column with t2 | _ | _ | _ | _ | _ <;>
          rw [hss] at h
        · obtain ⟨ts0, h0, rfl⟩ := Option.map_eq_some'.mp h
          rcases List.mem_cons.mp ht with rfl | hmem
          · cases htt
          rcases List.mem_cons.mp hmem with rfl | hmem2
          · exact absurd htt (state_searching_step_emit_ne_string _ _ _ _ hss)
          · exact ih _ _ _ _ h0 trivial t hmem2 htt
        · obtain ⟨ts0, h0, rfl⟩ := Option.map_eq_some'.mp h
          rcases List.mem_cons.mp ht with rfl | hmem
          · cases htt
          · exact ih _ _ _ _ h0 ⟨[], rfl, by simp⟩ t hmem htt
        · obtain ⟨ts0, h0, rfl⟩ := Option.map_eq_some'.mp h
          rcases List.mem_cons.mp ht with rfl | hmem
          · cases htt
          · exact ih _ _ _ _ h0 trivial t hmem htt
        · obtain ⟨ts0, h0, rfl⟩ := Option.map_eq_some'.mp h
          rcases List.mem_cons.mp ht with rfl | hmem
          · cases htt
          · exact ih _ _ _ _ h0 trivial t hmem htt
        · obtain ⟨ts0, h0, rfl⟩ := Option.map_eq_some'.mp h
          rcases List.mem_cons.mp ht with rfl | hmem
          · cases htt
          · exact ih _ _ _ _ h0 trivial t hmem htt
        · cases h
    | identifierState sl sc acc =>
      simp only [tokenize_loop] at h
      by_cases hal : is_alpha c0
      · rw [if_pos hal] at h
        exact ih _ _ _ _ h trivial t ht htt
      · rw [if_neg hal] at h
        rcases hss : state_searching_step c0 line column with t2 | _ | _ | _ | _ | _ <;>
          rw [hss] at h
        · obtain ⟨ts0, h0, rfl⟩ := Option.map_eq_some'.mp h
          rcases List.mem_cons.mp ht with rfl | hmem
          · exact absurd htt (get_keyword_type_ne_string _)
          rcases List.mem_cons.mp hmem with rfl | hmem2
          · exact absurd htt (state_searching_step_emit_ne_string _ _ _ _ hss)
          · exact ih _ _ _ _ h0 trivial t hmem2 htt
        · obtain ⟨ts0, h0, rfl⟩ := Option.map_eq_some'.mp h
          rcases List.mem_cons.mp ht with rfl | hmem
          · exact absurd htt (get_keyword_type_ne_string _)
          · exact ih _ _ _ _ h0 ⟨[], rfl, by simp⟩ t hmem htt
        · obtain ⟨ts0, h0, rfl⟩ := Option.map_eq_some'.mp h
          rcases List.mem_cons.mp ht with rfl | hmem
          · exact absurd htt (get_keyword_type_ne_string _)
          · exact ih _ _ _ _ h0 trivial t hmem htt
        · obtain ⟨ts0, h0, rfl⟩ := Option.map_eq_some'.mp h
          rcases List.mem_cons.mp ht with rfl | hmem
          · exact absurd htt (get_keyword_type_ne_string _)
          · exact ih _ _ _ _ h0 trivial t hmem htt
        · obtain ⟨ts0, h0, rfl⟩ := Option.map_eq_some'.mp h
          rcases List.mem_cons.mp ht with rfl | hmem
          · exact absurd htt (get_keyword_type_ne_string _)
          · exact ih _ _ _ _ h0 trivial t hmem htt
        · cases h

/-- C3: the text of every `STRING` token starts at the opening quote — the
extraction start index is the index of the quote itself, so the quote
character is included and the token text is not the quote-free contents
(first conjunct: the value is `"` followed by the quote-free characters
scanned before the closing quote); and on the closing quote the loop emits
the token and resumes scanning in the searching state at the character
after the closing quote (second conjunct, an unfolding equation of the C
loop's string state). -/
theorem C3_string_token_starts_at_opening_quote :
    (∀ (input : List Char) (ts : List Token), tokenize input = some ts →
      ∀ t ∈ ts, t.type = .STRING →
        ∃ content, t.value = String.mk ('"' :: content) ∧ '"' ∉ content) ∧
    (∀ (sl sc : Nat) (acc : List Char) (line column : Nat) (rest : List Char),
      tokenize_loop (.stringState sl sc acc) line column ('"' :: rest) =
        (tokenize_loop .searching line column rest).map
          ((⟨.STRING, String.mk acc, sl, sc⟩ : Token) :: ·)) := by
  constructor
  · intro input ts h t ht htt
    exact tokenize_loop_string_tokens input .searching 1 1 ts h trivial t ht htt
  · intro sl sc acc line column rest
    simp [tokenize_loop]

/-- Witness for C3 at the input `"hi")` (a string literal followed by a
parenthesis): the emitted STRING token's text is `"hi` — opening quote
included, closing quote excluded. -/
theorem C3_string_token_starts_at_opening_quote_witness :
    ∃ content, (Token.value ⟨.STRING, "\x22hi", 1, 1⟩) = String.mk ('"' :: content) ∧
      '"' ∉ content :=
  C3_string_token_starts_at_opening_quote.1 "\x22hi\x22)".toList
    [⟨.STRING, "\x22hi", 1, 1⟩, ⟨.RPAREN, ")", 1, 2⟩, ⟨.EOF, "EOF", 1, 3⟩]
    (by decide) ⟨.STRING, "\x22hi", 1, 1⟩ (by simp) rfl

/-- Helper: closing an identifier token and re-scanning the same character
in the searching state (the non-consuming loop transition of the C code)
equals the searching run on the same input with the closed token
prepended. -/
theorem tokenize_loop_identifier_exit
    (sl sc : Nat) (acc : List Char) (line column : Nat) (c : Char)
    (rest : List Char) (hal : ¬ is_alpha c) :
    tokenize_loop (.identifierState sl sc acc) line column (c :: rest) =
      (tokenize_loop .searching line column (c :: rest)).map
        ((⟨get_keyword_type (String.mk acc), String.mk acc, sl, sc⟩ : Token) :: ·) := by
  conv_lhs => rw [tokenize_loop]
  conv_rhs => rw [tokenize_loop]
  rw [if_neg hal]
  rcases hss : state_searching_step c line column with t2 | _ | _ | _ | _ | _ <;>
    (simp [hss, Option.map_map]; try rfl)

/-- Helper: the analogous non-consuming closing transition for number
tokens. -/
theorem tokenize_loop_number_exit
    (sl sc : Nat) (acc : List Char) (line column : Nat) (c : Char)
    (rest : List Char) (hd : ¬ is_digit c) :
    tokenize_loop (.numberState sl sc acc) line column (c :: rest) =
      (tokenize_loop .searching line column (c :: rest)).map
        ((⟨.NUMBER, String.mk acc, sl, sc⟩ : Token) :: ·) := by
  conv_lhs => rw [tokenize_loop]
  conv_rhs => rw [tokenize_loop]
  rw [if_neg hd]
  rcases hss : state_searching_step c line column with t2 | _ | _ | _ | _ | _ <;>
    (simp [hss, Option.map_map]; try rfl)

/-- Helper for C9: the literal iteration-step model of the C scanning loop,
run with fuel `2·n + 1 + extra`, terminates and computes exactly
`tokenize_loop`: every iteration either consumes a character or is the
single non-consuming close of an identifier/number token, so the loop
performs at most `2·n + 1` iterations on an `n`-character input. -/
theorem tokenize_run_agrees :
    ∀ (fuel : Nat) (input : List Char) (st : TokState) (line column : Nat),
      2 * input.length + 1 + state_extra st ≤ fuel →
      tokenize_run fuel ⟨st, line, column, input⟩ =
        some (tokenize_loop st line column input) := by
  intro fuel
  induction fuel with
  | zero => intro input st line column h; omega
  | succ f ih =>
    intro input st line column hle
    cases input with
    | nil =>
      cases st <;> simp [tokenize_run, tokenize_step, tokenize_loop]
    | cons c rest =>
      cases st with
      | searching =>
        simp only [tokenize_run, tokenize_step]
        rcases hss : state_searching_step c line column with t2 | _ | _ | _ | _ | _ <;>
          simp only [hss]
        · rw [ih rest .searching _ _
            (by simp only [state_extra, List.length_cons] at hle ⊢; omega)]
          conv_rhs => rw [tokenize_loop]
          rw [hss]
          simp
        · rw [ih rest (.stringState line column ['"']) _ _
            (by simp only [state_extra, List.length_cons] at hle ⊢; omega)]
          conv_rhs => rw [tokenize_loop]
          rw [hss]
          simp
        · rw [ih rest (.numberState line column [c]) _ _
            (by simp only [state_extra, List.length_cons] at hle ⊢; omega)]
          conv_rhs => rw [tokenize_loop]
          rw [hss]
          simp
        · rw [ih rest (.identifierState line column [c]) _ _
            (by simp only [state_extra, List.length_cons] at hle ⊢; omega)]
          conv_rhs => rw [tokenize_loop]
          rw [hss]
          simp
        · rw [ih rest .searching _ _
            (by simp only [state_extra, List.length_cons] at hle ⊢; omega)]
          conv_rhs => rw [tokenize_loop]
          rw [hss]
          simp
        · simp [tokenize_loop, hss]
      | stringState sl sc acc =>
        by_cases hq : c = '"'
        · have hstep : tokenize_step ⟨.stringState sl sc acc, line, column, c :: rest⟩ =
              .cont [⟨.STRING, String.mk acc, sl, sc⟩] ⟨.searching, line, column, rest⟩ := by
            simp [tokenize_step, hq]
          simp only [tokenize_run, hstep]
          rw [ih rest .searching _ _
            (by simp only [state_extra, List.length_cons] at hle ⊢; omega)]
          conv_rhs => rw [tokenize_loop]
          rw [if_pos hq]
          simp
        · have hstep : tokenize_step ⟨.stringState sl sc acc, line, column, c :: rest⟩ =
              .cont [] ⟨.stringState sl sc (acc ++ [c]), line, column, rest⟩ := by
            simp [tokenize_step, hq]
          simp only [tokenize_run, hstep]
          rw [ih rest (.stringState sl sc (acc ++ [c])) _ _
            (by simp only [state_extra, List.length_cons] at hle ⊢; omega)]
          conv_rhs => rw [tokenize_loop]
          rw [if_neg hq]
          simp
      | numberState sl sc acc =>
        by_cases hd : is_digit c
        · have hstep : tokenize_step ⟨.numberState sl sc acc, line, column, c :: rest⟩ =
              .cont [] ⟨.numberState sl sc (acc ++ [c]), line, column, rest⟩ := by
            simp [tokenize_step, hd]
          simp only [tokenize_run, hstep]
          rw [ih rest (.numberState sl sc (acc ++ [c])) _ _
            (by simp only [state_extra, List.length_cons] at hle ⊢; omega)]
          conv_rhs => rw [tokenize_loop]
          rw [if_pos hd]
          simp
        · have hstep : tokenize_step ⟨.numberState sl sc acc, line, column, c :: rest⟩ =
              .cont [⟨.NUMBER, String.mk acc, sl, sc⟩] ⟨.searching, line, column, c :: rest⟩ := by
            simp [tokenize_step, hd]
          simp only [tokenize_run, hstep]
          rw [ih (c :: rest) .searching _ _
            (by simp only [state_extra, List.length_cons] at hle ⊢; omega)]
          rw [tokenize_loop_number_exit sl sc acc line column c rest hd]
          simp
      | identifierState sl sc acc =>
        by_cases hal : is_alpha c
        · have hstep : tokenize_step ⟨.identifierState sl sc acc, line, column, c :: rest⟩ =
              .cont [] ⟨.identifierState sl sc (acc ++ [c]), line, column, rest⟩ := by
            simp [tokenize_step, hal]
          simp only [tokenize_run, hstep]
          rw [ih rest (.identifierState sl sc (acc ++ [c])) _ _
            (by simp only [state_extra, List.length_cons] at hle ⊢; omega)]
          conv_rhs => rw [tokenize_loop]
          rw [if_pos hal]
          simp
        · have hstep : tokenize_step ⟨.identifierState sl sc acc, line, column, c :: rest⟩ =
              .cont [⟨get_keyword_type (String.mk acc), String.mk acc, sl, sc⟩]
                ⟨.searching, line, column, c :: rest⟩ := by
            simp [tokenize_step, hal]
          simp only [tokenize_run, hstep]
          rw [ih (c :: rest) .searching _ _
            (by simp only [state_extra, List.length_cons] at hle ⊢; omega)]
          rw [tokenize_loop_identifier_exit sl sc acc line column c rest hal]
          simp
/-- Helper: a character matching some lexical rule never takes the fatal
`err` branch of the searching state. -/
theorem state_searching_step_ne_err_of_legal
    (c : Char) (l col : Nat) (hlegal : legal_char c = true) :
    state_searching_step c l col ≠ .err := by
  unfold state_searching_step
  by_cases h1 : c = '"'
  · rw [if_pos h1]; simp
  rw [if_neg h1]
  by_cases h2 : c = '('
  · rw [if_pos h2]; simp
  rw [if_neg h2]
  by_cases h3 : c = ')'
  · rw [if_pos h3]; simp
  rw [if_neg h3]
  by_cases h4 : c = ';'
  · rw [if_pos h4]; simp
  rw [if_neg h4]
  by_cases h5 : c = lbrace_char
  · rw [if_pos h5]; simp
  rw [if_neg h5]
  by_cases h6 : c = rbrace_char
  · rw [if_pos h6]; simp
  rw [if_neg h6]
  by_cases h7 : c = '+'
  · rw [if_pos h7]; simp
  rw [if_neg h7]
  by_cases h8 : c = '-'
  · rw [if_pos h8]; simp
  rw [if_neg h8]
  by_cases h9 : c = '*'
  · rw [if_pos h9]; simp
  rw [if_neg h9]
  by_cases h10 : c = '/'
  · rw [if_pos h10]; simp
  rw [if_neg h10]
  by_cases h11 : c = '>'
  · rw [if_pos h11]; simp
  rw [if_neg h11]
  by_cases h12 : c = '<'
  · rw [if_pos h12]; simp
  rw [if_neg h12]
  by_cases h13 : c = '='
  · rw [if_pos h13]; simp
  rw [if_neg h13]
  by_cases h14 : is_digit c
  · rw [if_pos h14]; simp
  rw [if_neg h14]
  by_cases h15 : is_alpha c
  · rw [if_pos h15]; simp
  rw [if_neg h15]
  by_cases h16 : is_whitespace c
  · rw [if_pos h16]; simp
  rw [if_neg h16]
  simp [legal_char, h1, h2, h3, h4, h5, h6, h7, h8, h9, h10, h11, h12, h13,
        h14, h15, h16] at hlegal

/-- Helper for C9: on inputs all of whose characters match some lexical
rule, the scanning loop succeeds from every state. -/
theorem tokenize_loop_legal_isSome :
    ∀ (input : List Char) (st : TokState) (line column : Nat),
      (∀ c ∈ input, legal_char c = true) →
      (tokenize_loop st line column input).isSome := by
  intro input
  induction input with
  | nil => intro st line column _; cases st <;> simp [tokenize_loop]
  | cons c rest ih =>
    intro st line column hleg
    have hc : legal_char c = true := hleg c (by simp)
    have hrest : ∀ x ∈ rest, legal_char x = true := fun x hx => hleg x (by simp [hx])
    have hsearch : ∀ (l2 c2 : Nat),
        (tokenize_loop .searching l2 c2 (c :: rest)).isSome := by
      intro l2 c2
      simp only [tokenize_loop]
      rcases hss : state_searching_step c l2 c2 with t2 | _ | _ | _ | _ | _
      · obtain ⟨v, hv⟩ := Option.isSome_iff_exists.mp (ih .searching
          (update_position c l2 c2).1 (update_position c l2 c2).2 hrest)
        simp [hss, hv]
      · simp [hss, ih _ _ _ hrest]
      · simp [hss, ih _ _ _ hrest]
      · simp [hss, ih _ _ _ hrest]
      · simp [hss, ih _ _ _ hrest]
      · exact absurd hss (state_searching_step_ne_err_of_legal c l2 c2 hc)
    cases st with
    | searching => exact hsearch line column
    | stringState sl sc acc =>
      simp only [tokenize_loop]
      by_cases hq : c = '"'
      · obtain ⟨v, hv⟩ := Option.isSome_iff_exists.mp (ih .searching line column hrest)
        simp [hq, hv]
      · simp [hq, ih _ _ _ hrest]
    | numberState sl sc acc =>
      by_cases hd : is_digit c
      · simp only [tokenize_loop]
        simp [hd, ih _ _ _ hrest]
      · rw [tokenize_loop_number_exit sl sc acc line column c rest hd]
        obtain ⟨v, hv⟩ := Option.isSome_iff_exists.mp (hsearch line column)
        simp [hv]
    | identifierState sl sc acc =>
      by_cases hal : is_alpha c
      · simp only [tokenize_loop]
        simp [hal, ih _ _ _ hrest]
      · rw [tokenize_loop_identifier_exit sl sc acc line column c rest hal]
        obtain ⟨v, hv⟩ := Option.isSome_iff_exists.mp (hsearch line column)
        simp [hv]


/-- C9: `tokenize` is total and terminating for every finite input.  First
conjunct: the step-by-step model of the C scanning loop (`tokenize_run`
iterating `tokenize_step`), given the iteration budget `2·n + 1`, runs to
completion (no fuel exhaustion) and returns exactly `tokenize input` — the
loop cannot run forever because every iteration either consumes a character
or closes a pending token and the following iteration consumes.  Second
conjunct: if every input character matches some lexical rule, `tokenize`
succeeds; contrapositively a fatal failure only happens when some character
matches no rule in the searching state. -/
theorem C9_tokenize_total_and_terminating (input : List Char) :
    tokenize_run (2 * input.length + 1) ⟨.searching, 1, 1, input⟩ =
      some (tokenize input) ∧
    ((∀ c ∈ input, legal_char c = true) → (tokenize input).isSome) :=
  ⟨tokenize_run_agrees (2 * input.length + 1) input .searching 1 1
      (by simp [state_extra]),
   fun h => tokenize_loop_legal_isSome input .searching 1 1 h⟩

/-- Witness for C9 at the input `"var x"` (all characters legal). -/
theorem C9_tokenize_total_and_terminating_witness :
    tokenize_run (2 * "var x".toList.length + 1) ⟨.searching, 1, 1, "var x".toList⟩ =
      some (tokenize "var x".toList) ∧
    (tokenize "var x".toList).isSome :=
  ⟨(C9_tokenize_total_and_terminating "var x".toList).1,
   (C9_tokenize_total_and_terminating "var x".toList).2 (by decide)⟩

/-- C8: absent optional fields are serialized as an explicit `null` value
under their field name, never as an omitted key, in both delivery modes:
an IfStatement without else-block contains `"elseBlock": null`, and a
terminal Expression (no operator, no right operand) contains
`"operator": null` and `"right": null`, in the file-driven serializer
(`write_ast_to_json`, at any indent) and in the embeddable serializer
(`serialize_ast`) alike; each conjunct exhibits the surrounding document
text explicitly. -/
theorem C8_absent_optional_fields_serialize_as_explicit_null
    (condition block : ASTNode) (left_token : Token) (indent : Nat) :
    (∃ p q, write_ast_to_json (some (.if_statement condition block none)) indent =
      p ++ "\"elseBlock\": null" ++ q) ∧
    (∃ p q, serialize_ast (some (.if_statement condition block none)) =
      p ++ "\"elseBlock\": null" ++ q) ∧
    (∃ p q, write_ast_to_json (some (.expression left_token none none)) indent =
      p ++ "\"operator\": null" ++ q) ∧
    (∃ p q, write_ast_to_json (some (.expression left_token none none)) indent =
      p ++ "\"right\": null" ++ q) ∧
    (∃ p q, serialize_ast (some (.expression left_token none none)) =
      p ++ "\"operator\": null" ++ q) ∧
    (∃ p q, serialize_ast (some (.expression left_token none none)) =
      p ++ "\"right\": null" ++ q) := by
  have hnull : ∀ i : Nat, write_ast_to_json none i = "null" := fun i => by
    rw [write_ast_to_json]
  have hnullw : serialize_ast none = "null" := by rw [serialize_ast]
  refine ⟨?_, ?_, ?_, ?_, ?_, ?_⟩
  · refine ⟨"\x7b\n" ++ write_indent (indent+1) ++ "\"type\": "
        ++ toString (ASTNode.type_tag (.if_statement condition block none)) ++ ",\n"
        ++ write_indent (indent+1) ++ "\"data\": \x7b\n"
        ++ write_indent (indent+2) ++ "\"condition\": "
        ++ write_ast_to_json (some condition) (indent+2) ++ ",\n"
        ++ write_indent (indent+2) ++ "\"block\": "
        ++ write_ast_to_json (some block) (indent+2) ++ ",\n"
        ++ write_indent (indent+2),
      "\n" ++ write_indent (indent+1) ++ "\x7d" ++ "\n" ++ write_indent indent ++ "\x7d", ?_⟩
    rw [show ("\"elseBlock\": null" : String) = "\"elseBlock\": " ++ "null" from by decide]
    conv_lhs => rw [write_ast_to_json]
    simp only [hnull]
    simp only [String.append_assoc]
  · refine ⟨"\x7b\n  \"type\": "
        ++ json_append_int (ASTNode.type_tag (.if_statement condition block none))
        ++ ",\n  \"data\": " ++ "\x7b\n    \"condition\": "
        ++ serialize_ast (some condition) ++ ",\n    \"block\": "
        ++ serialize_ast (some block) ++ ",\n    ",
      "\n  \x7d" ++ "\n\x7d", ?_⟩
    rw [show ("\"elseBlock\": null" : String) = "\"elseBlock\": " ++ "null" from by decide]
    conv_lhs => rw [serialize_ast]
    simp only [hnullw]
    rw [show (",\n    \"elseBlock\": " : String) = ",\n    " ++ "\"elseBlock\": "
      from by decide]
    simp only [String.append_assoc]
  · refine ⟨"\x7b\n" ++ write_indent (indent+1) ++ "\"type\": "
        ++ toString (ASTNode.type_tag (.expression left_token none none)) ++ ",\n"
        ++ write_indent (indent+1) ++ "\"data\": \x7b\n"
        ++ write_indent (indent+2) ++ "\"leftToken\": "
        ++ write_token_to_json left_token (indent+2) ++ ",\n"
        ++ write_indent (indent+2),
      ",\n" ++ write_indent (indent+2) ++ "\"right\": "
        ++ write_ast_to_json none (indent+2) ++ "\n"
        ++ write_indent (indent+1) ++ "\x7d"
        ++ "\n" ++ write_indent indent ++ "\x7d", ?_⟩
    rw [show ("\"operator\": null" : String) = "\"operator\": " ++ "null" from by decide]
    conv_lhs => rw [write_ast_to_json]
    simp only [String.append_assoc]
  · refine ⟨"\x7b\n" ++ write_indent (indent+1) ++ "\"type\": "
        ++ toString (ASTNode.type_tag (.expression left_token none none)) ++ ",\n"
        ++ write_indent (indent+1) ++ "\"data\": \x7b\n"
        ++ write_indent (indent+2) ++ "\"leftToken\": "
        ++ write_token_to_json left_token (indent+2) ++ ",\n"
        ++ write_indent (indent+2) ++ "\"operator\": " ++ "null" ++ ",\n"
        ++ write_indent (indent+2),
      "\n" ++ write_indent (indent+1) ++ "\x7d"
        ++ "\n" ++ write_indent indent ++ "\x7d", ?_⟩
    rw [show ("\"right\": null" : String) = "\"right\": " ++ "null" from by decide]
    conv_lhs => rw [write_ast_to_json]
    simp only [hnull]
    simp only [String.append_assoc]
  · refine ⟨"\x7b\n  \"type\": "
        ++ json_append_int (ASTNode.type_tag (.expression left_token none none))
        ++ ",\n  \"data\": " ++ "\x7b\n    \"leftToken\": "
        ++ serialize_token left_token ++ ",\n    ",
      ",\n    \"right\": " ++ serialize_ast none ++ "\n  \x7d" ++ "\n\x7d", ?_⟩
    rw [show ("\"operator\": null" : String) = "\"operator\": " ++ "null" from by decide]
    conv_lhs => rw [serialize_ast]
    rw [show (",\n    \"operator\": " : String) = ",\n    " ++ "\"operator\": "
      from by decide]
    simp only [String.append_assoc]
  · refine ⟨"\x7b\n  \"type\": "
        ++ json_append_int (ASTNode.type_tag (.expression left_token none none))
        ++ ",\n  \"data\": " ++ "\x7b\n    \"leftToken\": "
        ++ serialize_token left_token ++ ",\n    \"operator\": " ++ "null" ++ ",\n    ",
      "\n  \x7d" ++ "\n\x7d", ?_⟩
    rw [show ("\"right\": null" : String) = "\"right\": " ++ "null" from by decide]
    conv_lhs => rw [serialize_ast]
    simp only [hnullw]
    rw [show (",\n    \"right\": " : String) = ",\n    " ++ "\"right\": "
      from by decide]
    simp only [String.append_assoc]

/-- Helper: whitespace stripping distributes over string append. -/
theorem strip_ws_append (s t : String) :
    strip_ws (s ++ t) = strip_ws s ++ strip_ws t := by
  simp [strip_ws]

/-- Helper: indentation contributes nothing after whitespace stripping. -/
theorem strip_ws_write_indent (n : Nat) : strip_ws (write_indent n) = [] := by
  induction n with
  | zero => decide
  | succ k ih =>
    rw [write_indent, strip_ws_append, ih]
    decide

/-- Helper: on characters that are printable or newline/tab, the partial
escaper of the file-driven mode and the full escaper of the embeddable mode
produce identical text. -/
theorem escape_char_eq (c : Char) (h : safe_char c = true) :
    json_escape_char c = write_json_char c := by
  have h32 : 32 ≤ c.toNat ∨ c = '\n' ∨ c = '\t' := by
    simp [safe_char] at h
    tauto
  unfold json_escape_char write_json_char
  by_cases h1 : c = '"'
  · rw [if_pos h1, if_pos h1]
  rw [if_neg h1, if_neg h1]
  by_cases h2 : c = '\\'
  · rw [if_pos h2, if_pos h2]
  rw [if_neg h2, if_neg h2]
  by_cases h3 : c = '\n'
  · rw [if_pos h3, if_pos h3]
  rw [if_neg h3, if_neg h3]
  by_cases h4 : c = '\t'
  · rw [if_pos h4, if_pos h4]
  rw [if_neg h4, if_neg h4]
  have hge : 32 ≤ c.toNat := by
    rcases h32 with h' | h' | h'
    · exact h'
    · exact absurd h' h3
    · exact absurd h' h4
  have h5 : c ≠ '\r' := by
    intro hc; subst hc; simp at hge
  have h6 : c ≠ Char.ofNat 8 := by
    intro hc; subst hc; simp at hge
  have h7 : c ≠ Char.ofNat 12 := by
    intro hc; subst hc; simp at hge
  rw [if_neg h5, if_neg h6, if_neg h7, if_neg (by omega : ¬ c.toNat < 32)]

/-- Helper: `escape_char_eq` lifted over a character list. -/
theorem escape_chars_eq (l : List Char) (h : ∀ c ∈ l, safe_char c = true) :
    write_json_chars l = json_escape_chars l := by
  induction l with
  | nil => rfl
  | cons c cs ih =>
    rw [write_json_chars, json_escape_chars,
        escape_char_eq c (h c (by simp)), ih (fun x hx => h x (by simp [hx]))]

/-- Helper: on safe strings the two quoted-string writers agree exactly. -/
theorem escape_string_eq (s : String) (h : safe_string s = true) (i : Nat) :
    write_json_string s i = json_append_escaped_string s := by
  rw [write_json_string, json_append_escaped_string,
      escape_chars_eq s.data (by simpa [safe_string, List.all_eq_true] using h)]

/-- Helper: the two token serializers agree up to whitespace on tokens with
safe text. -/
theorem strip_ws_token_eq (t : Token) (h : safe_string t.value = true) (i : Nat) :
    strip_ws (write_token_to_json t i) = strip_ws (serialize_token t) := by
  rw [write_token_to_json, serialize_token, escape_string_eq t.value h (i+1)]
  simp only [strip_ws_append, strip_ws_write_indent, json_append_int]
  simp [strip_ws]
mutual

/-- Helper for C7 (main induction): for trees whose string values contain
only characters both escapers treat identically, the file-driven serializer
and the embeddable serializer produce the same document up to whitespace,
at every indentation level. -/
theorem strip_ws_ast_eq (node : ASTNode)
    (hs : ASTNode.safe_strings node = true) (i : Nat) :
    strip_ws (write_ast_to_json (some node) i) = strip_ws (serialize_ast (some node)) := by
  cases node with
  | program block =>
    have ih := strip_ws_ast_eq block (by simpa [ASTNode.safe_strings] using hs) (i+2)
    conv_lhs => rw [write_ast_to_json]
    conv_rhs => rw [serialize_ast]
    simp only [strip_ws_append, strip_ws_write_indent, json_append_int]
    rw [ih]
    simp [strip_ws]
  | statement_block stmts =>
    have ih := strip_ws_items_eq stmts (by simpa [ASTNode.safe_strings] using hs) (i+2)
    conv_lhs => rw [write_ast_to_json]
    conv_rhs => rw [serialize_ast]
    rw [write_statement_list_to_json, serialize_statement_list]
    simp only [strip_ws_append, strip_ws_write_indent, json_append_int]
    rw [ih]
    simp [strip_ws]
  | variable_statement identifier =>
    have hsafe : safe_string identifier = true := by
      simpa [ASTNode.safe_strings] using hs
    conv_lhs => rw [write_ast_to_json]
    conv_rhs => rw [serialize_ast]
    rw [escape_string_eq identifier hsafe (i+2)]
    simp only [strip_ws_append, strip_ws_write_indent, json_append_int]
    simp [strip_ws]
  | if_statement condition block else_block =>
    simp only [ASTNode.safe_strings, Bool.and_eq_true] at hs
    obtain ⟨⟨h1, h2⟩, h3⟩ := hs
    have ih1 := strip_ws_ast_eq condition h1 (i+2)
    have ih2 := strip_ws_ast_eq block h2 (i+2)
    have ih3 := strip_ws_opt_eq else_block h3 (i+2)
    conv_lhs => rw [write_ast_to_json]
    conv_rhs => rw [serialize_ast]
    simp only [strip_ws_append, strip_ws_write_indent, json_append_int]
    rw [ih1, ih2, ih3]
    simp [strip_ws]
  | while_statement condition block =>
    simp only [ASTNode.safe_strings, Bool.and_eq_true] at hs
    obtain ⟨h1, h2⟩ := hs
    have ih1 := strip_ws_ast_eq condition h1 (i+2)
    have ih2 := strip_ws_ast_eq block h2 (i+2)
    conv_lhs => rw [write_ast_to_json]
    conv_rhs => rw [serialize_ast]
    simp only [strip_ws_append, strip_ws_write_indent, json_append_int]
    rw [ih1, ih2]
    simp [strip_ws]
  | assignment_statement identifier value =>
    simp only [ASTNode.safe_strings, Bool.and_eq_true] at hs
    obtain ⟨h1, h2⟩ := hs
    have ih := strip_ws_ast_eq value h2 (i+2)
    conv_lhs => rw [write_ast_to_json]
    conv_rhs => rw [serialize_ast]
    rw [escape_string_eq identifier h1 (i+2)]
    simp only [strip_ws_append, strip_ws_write_indent, json_append_int]
    rw [ih]
    simp [strip_ws]
  | condition left operator right =>
    simp only [ASTNode.safe_strings, Bool.and_eq_true] at hs
    obtain ⟨⟨h1, h2⟩, h3⟩ := hs
    have ih1 := strip_ws_ast_eq left h1 (i+2)
    have ih2 := strip_ws_ast_eq right h3 (i+2)
    conv_lhs => rw [write_ast_to_json]
    conv_rhs => rw [serialize_ast]
    rw [escape_string_eq operator h2 (i+2)]
    simp only [strip_ws_append, strip_ws_write_indent, json_append_int]
    rw [ih1, ih2]
    simp [strip_ws]
  | expression left_token operator right =>
    simp only [ASTNode.safe_strings, Bool.and_eq_true] at hs
    obtain ⟨⟨h1, h2⟩, h3⟩ := hs
    have ih1 := strip_ws_token_eq left_token h1 (i+2)
    have ih2 := strip_ws_opt_eq right h3 (i+2)
    rw [write_ast_to_json.eq_def, serialize_ast.eq_def]
    simp only []
    cases operator with
    | none =>
      simp only [strip_ws_append, strip_ws_write_indent, json_append_int]
      rw [ih1, ih2]
      simp [strip_ws]
    | some op =>
      have hop : safe_string op = true := by simpa using h2
      rw [show (match some op with
            | some op2 => write_json_string op2 (i + 2)
            | none => "null") = write_json_string op (i+2) from rfl,
          show (match some op with
            | some op2 => json_append_escaped_string op2
            | none => "null") = json_append_escaped_string op from rfl,
          escape_string_eq op hop (i+2)]
      simp only [strip_ws_append, strip_ws_write_indent, json_append_int]
      rw [ih1, ih2]
      simp [strip_ws]

/-- Helper: `strip_ws_ast_eq` for an optional (nullable) node. -/
theorem strip_ws_opt_eq (o : Option ASTNode)
    (hs : safe_strings_opt o = true) (i : Nat) :
    strip_ws (write_ast_to_json o i) = strip_ws (serialize_ast o) := by
  cases o with
  | none =>
    rw [show write_ast_to_json none i = "null" from by rw [write_ast_to_json],
        show serialize_ast none = "null" from by rw [serialize_ast]]
  | some node => exact strip_ws_ast_eq node (by simpa [safe_strings_opt] using hs) i

/-- Helper: `strip_ws_ast_eq` for the statement-list loops of the two
serializers. -/
theorem strip_ws_items_eq (l : List ASTNode)
    (hs : safe_strings_list l = true) (i : Nat) :
    strip_ws (write_statement_list_items l i) =
      strip_ws (serialize_statement_list_items l) := by
  match l with
  | [] =>
    rw [show write_statement_list_items [] i = "" from by rw [write_statement_list_items],
        show serialize_statement_list_items [] = "" from by
          rw [serialize_statement_list_items]]
  | [x] =>
    have hx : ASTNode.safe_strings x = true := by
      simpa [safe_strings_list] using hs
    have ih := strip_ws_ast_eq x hx (i+1)
    rw [write_statement_list_items, serialize_statement_list_items]
    simp only [strip_ws_append, strip_ws_write_indent]
    rw [ih]
    simp [strip_ws]
  | x :: y :: xs =>
    simp only [safe_strings_list, Bool.and_eq_true] at hs
    obtain ⟨hx, hrest⟩ := hs
    have ih1 := strip_ws_ast_eq x hx (i+1)
    have ih2 := strip_ws_items_eq (y :: xs) (by simp [safe_strings_list, hrest]) i
    rw [write_statement_list_items, serialize_statement_list_items]
    simp only [strip_ws_append, strip_ws_write_indent]
    rw [ih1, ih2]
    simp [strip_ws]

end

/-- C7 counterexample: the claim asserts the two delivery modes agree for
every Program tree, "including for trees whose string values contain
control characters such as carriage return".  They do not: on a Program
whose identifier contains a carriage return, the file-driven serializer
(`write_json_string`) copies the CR byte raw into the string value while
the embeddable serializer (`json_append_escaped_string`) writes the
two-character escape `\r`, so the documents differ inside a string value —
not merely in incidental whitespace (the comparison below strips every
space and newline outside and inside values alike, and still differs). -/
theorem C7_serializer_equivalence_counterexample :
    strip_ws (write_ast_to_json
        (some (.program (.statement_block [.variable_statement "a\rb"]))) 0) ≠
      strip_ws (serialize_ast
        (some (.program (.statement_block [.variable_statement "a\rb"])))) := by
  simp only [write_ast_to_json, serialize_ast, write_statement_list_to_json,
    write_statement_list_items, serialize_statement_list,
    serialize_statement_list_items]
  decide

/-- C7 (amended): for every tree whose embedded string values contain only
characters that the two escaping routines treat identically — printable
characters, newline and tab; in particular no carriage return, backspace,
form feed or other control bytes — the buffered-string mode
(`serialize_ast`) and the streaming mode (`write_ast_to_json`, at any
indentation level) produce documents that are equal after stripping the
whitespace characters the two modes place differently (spaces and
newlines): identical key order, nesting and key/value structure. -/
theorem C7_serializers_agree_on_safe_trees
    (node : ASTNode) (hs : ASTNode.safe_strings node = true) (i : Nat) :
    strip_ws (write_ast_to_json (some node) i) =
      strip_ws (serialize_ast (some node)) :=
  strip_ws_ast_eq node hs i

/-- Witness for the amended C7 at a concrete Program tree. -/
theorem C7_serializers_agree_on_safe_trees_witness :
    strip_ws (write_ast_to_json
        (some (.program (.statement_block [.variable_statement "ab"]))) 0) =
      strip_ws (serialize_ast
        (some (.program (.statement_block [.variable_statement "ab"])))) :=
  C7_serializers_agree_on_safe_trees
    (.program (.statement_block [.variable_statement "ab"]))
    (by simp only [ASTNode.safe_strings, safe_strings_list]; decide) 0

/-- C5: a condition whose left expression is not followed by one of the
comparators `>`, `<`, `=` fails with the `condition` ParseError reported at
the offending token — `parse_condition` has no comparator-free success
path, so it never returns a Condition node without an operator (in this
embedding the operator field of a Condition is not even optional).  The
second conjunct evaluates the claim's concrete example: parsing
`"if(x){y=1}"` fails with the `condition` ParseError at the `)` token
(recorded at 1:4). -/
theorem C5_condition_missing_comparator_fails
    (fuel : Nat) (p p1 : Parser) (left : ASTNode) (t : Token)
    (hexp : parse_expression fuel p = .ok (left, p1))
    (hcur : current_token p1 = some t)
    (hg : t.type ≠ .GREATER) (hl : t.type ≠ .LESS) (he : t.type ≠ .EQUAL) :
    parse_condition (fuel + 1) p =
      .error (.unexpected_symbol "condition" t.line t.column) ∧
    parse_source "if(x)\x7by=1\x7d".toList =
      some (.error (.unexpected_symbol "condition" 1 4)) := by
  refine ⟨?_, rfl⟩
  simp only [parse_condition, hexp, bind, Except.bind, accept, hcur, parser_error]
  simp [hcur, hg, hl, he]

/-- Witness for C5 at the token sequence `x ) …`. -/
theorem C5_condition_missing_comparator_fails_witness :
    parse_condition 2 ⟨[⟨.IDENTIFIER, "x", 1, 1⟩, ⟨.RPAREN, ")", 1, 2⟩], 0⟩ =
      .error (.unexpected_symbol "condition" 1 2) ∧
    parse_source "if(x)\x7by=1\x7d".toList =
      some (.error (.unexpected_symbol "condition" 1 4)) :=
  C5_condition_missing_comparator_fails 1 _ _
    (.expression ⟨.IDENTIFIER, "x", 1, 1⟩ none none) ⟨.RPAREN, ")", 1, 2⟩
    rfl rfl (by decide) (by decide) (by decide)

example : AstBench.tokenize "var x".toList =
    some [⟨.VAR, "var", 1, 1⟩, ⟨.EOF, "EOF", 1, 4⟩] := by decide

example : AstBench.tokenize "ab cd(".toList =
    some [⟨.IDENTIFIER, "ab", 1, 1⟩, ⟨.IDENTIFIER, "cd", 1, 3⟩,
          ⟨.LPAREN, "(", 1, 4⟩, ⟨.EOF, "EOF", 1, 5⟩] := by decide

example : AstBench.parse_source "x=1+2+3".toList =
    some (.error (.unexpected_symbol "expression" 1 8)) := rfl

example : AstBench.parse_source "if(x)\x7by=1\x7d".toList =
    some (.error (.unexpected_symbol "condition" 1 4)) := rfl

example : AstBench.parse_source "if(x>1)\x7by=2\x7d".toList =
    some (.ok (.program (.statement_block
      [.if_statement
        (.condition (.expression ⟨.IDENTIFIER, "x", 1, 3⟩ none none) ">"
          (.expression ⟨.NUMBER, "1", 1, 5⟩ none none))
        (.statement_block [.assignment_statement "y"
          (.expression ⟨.NUMBER, "2", 1, 10⟩ none none)])
        none]))) := rfl
theorem length_list_swap (l : List Nat) (i j : Nat) :
    (list_swap l i j).length = l.length := by
  simp [list_swap]

theorem getD_set_eq (l : List Nat) (i v : Nat) (h : i < l.length) :
    (l.set i v).getD i 0 = v := by
  rw [List.getD_eq_getElem _ 0 (by simpa using h)]
  simp [List.getElem_set]

theorem getD_set_ne (l : List Nat) (i j v : Nat) (h : i ≠ j) :
    (l.set i v).getD j 0 = l.getD j 0 := by
  by_cases hj : j < l.length
  · rw [List.getD_eq_getElem _ 0 (by simpa using hj), List.getD_eq_getElem _ 0 hj]
    simp [List.getElem_set, h]
  · rw [List.getD_eq_default _ _ (by simpa using Nat.le_of_not_lt hj),
        List.getD_eq_default _ _ (Nat.le_of_not_lt hj)]

theorem getD_list_swap (l : List Nat) (i j k : Nat)
    (hi : i < l.length) (hj : j < l.length) :
    (list_swap l i j).getD k 0 =
      if k = j then l.getD i 0
      else if k = i then l.getD j 0
      else l.getD k 0 := by
  rw [list_swap]
  by_cases hkj : k = j
  · subst hkj
    rw [if_pos rfl, getD_set_eq _ _ _ (by simpa using hj)]
  · rw [if_neg hkj, getD_set_ne _ _ _ _ (fun hc => hkj hc.symm)]
    by_cases hki : k = i
    · subst hki
      rw [if_pos rfl, getD_set_eq _ _ _ hi]
    · rw [if_neg hki, getD_set_ne _ _ _ _ (fun hc => hki hc.symm)]

theorem set_getD_self (l : List Nat) (i : Nat) (h : i < l.length) :
    l.set i (l.getD i 0) = l := by
  apply List.ext_getElem
  · simp
  · intro k h1 h2
    rw [List.getElem_set]
    split
    · subst k; rw [List.getD_eq_getElem l 0 h]
    · rfl

theorem list_swap_self (l : List Nat) (i : Nat) (h : i < l.length) :
    list_swap l i i = l := by
  rw [list_swap, List.set_set, set_getD_self l i h]

theorem cons_middle_perm (x y : Nat) (e d : List Nat) :
    List.Perm (y :: (e ++ x :: d)) (x :: (e ++ y :: d)) :=
  ((List.Perm.cons y List.perm_middle).trans (List.Perm.swap x y (e ++ d))).trans
    (List.Perm.cons x List.perm_middle.symm)

theorem set_cons_perm (a : List Nat) (i : Nat) (y : Nat) (d : List Nat)
    (hi : i < a.length) :
    List.Perm (a.set i y ++ a[i] :: d) (a ++ y :: d) := by
  conv_rhs => rw [← List.take_append_drop i a, List.drop_eq_getElem_cons hi]
  rw [List.set_eq_take_cons_drop y hi]
  simp only [List.append_assoc, List.cons_append]
  exact List.Perm.append_left _ (cons_middle_perm a[i] y _ _)
theorem swap_core_perm (l : List Nat) (a b : Nat) (hab : a < b) (hb : b < l.length) :
    List.Perm ((l.set a (l.getD b 0)).set b (l.getD a 0)) l := by
  have ha : a < l.length := lt_trans hab hb
  rw [List.getD_eq_getElem l 0 ha, List.getD_eq_getElem l 0 hb]
  rw [List.set_eq_take_cons_drop _ (show b < (l.set a l[b]).length by simpa using hb)]
  rw [List.set_take, List.drop_set_of_lt _ _ (by omega : a < b + 1)]
  have htb : a < (l.take b).length := by
    simp [List.length_take]
    omega
  have h1 : List.Perm ((l.take b).set a l[b] ++ l[a] :: l.drop (b + 1))
      ((l.take b) ++ l[b] :: l.drop (b + 1)) := by
    have := set_cons_perm (l.take b) a (l[b]) (l.drop (b + 1)) htb
    rw [show (l.take b)[a] = l[a] from by simp [List.getElem_take]] at this
    exact this
  have h2 : l.take b ++ l[b] :: l.drop (b + 1) = l := by
    conv_rhs => rw [← List.take_append_drop b l, List.drop_eq_getElem_cons hb]
  exact h1.trans (by rw [h2])

theorem list_swap_perm (l : List Nat) (i j : Nat)
    (hi : i < l.length) (hj : j < l.length) :
    List.Perm (list_swap l i j) l := by
  rcases Nat.lt_trichotomy i j with hij | rfl | hij
  · exact swap_core_perm l i j hij hj
  · rw [list_swap_self l i hi]
  · rw [list_swap, List.set_comm _ _ _ (by omega : i ≠ j)]
    exact swap_core_perm l j i hij hi
theorem bpassN_perm (n : Nat) (l : List Nat) : List.Perm (bpassN n l) l := by
  induction n generalizing l with
  | zero => rw [bpassN]
  | succ k ih =>
    match l with
    | [] => rw [bpassN]
    | [x] => rw [bpassN]
    | x :: y :: rest =>
      rw [bpassN]
      by_cases hxy : x > y
      · rw [if_pos hxy]
        exact ((ih (x :: rest)).cons y).trans (List.Perm.swap x y rest)
      · rw [if_neg hxy]
        exact (ih (y :: rest)).cons x

theorem bpassN_length (n : Nat) (l : List Nat) : (bpassN n l).length = l.length :=
  (bpassN_perm n l).length_eq

theorem bpassN_append (n : Nat) (l r : List Nat) (h : n + 1 ≤ l.length) :
    bpassN n (l ++ r) = bpassN n l ++ r := by
  induction n generalizing l with
  | zero => rw [bpassN, bpassN]
  | succ k ih =>
    match l with
    | [] => simp at h
    | [x] => simp at h
    | x :: y :: rest =>
      rw [List.cons_append, List.cons_append, bpassN, bpassN]
      by_cases hxy : x > y
      · rw [if_pos hxy, if_pos hxy, ← List.cons_append, ih (x :: rest) (by simp at h ⊢; omega)]
        rfl
      · rw [if_neg hxy, if_neg hxy, ← List.cons_append, ih (y :: rest) (by simp at h ⊢; omega)]
        rfl

theorem bpassN_last_max (l : List Nat) (hne : l ≠ []) :
    ∃ l2 m, bpassN (l.length - 1) l = l2 ++ [m] ∧ ∀ a ∈ l, a ≤ m := by
  match l with
  | [x] =>
    have h0 : ([x] : List Nat).length - 1 = 0 := by simp
    refine ⟨[], x, by rw [h0, bpassN]; rfl, ?_⟩
    intro a ha
    simp at ha
    omega
  | x :: y :: rest =>
    rw [show (x :: y :: rest).length - 1 = rest.length + 1 by simp]
    rw [bpassN]
    by_cases hxy : x > y
    · rw [if_pos hxy]
      obtain ⟨l2, m, heq, hmax⟩ := bpassN_last_max (x :: rest) (by simp)
      rw [show (x :: rest).length - 1 = rest.length by simp] at heq
      refine ⟨y :: l2, m, by rw [heq]; rfl, ?_⟩
      intro a ha
      rcases List.mem_cons.mp ha with rfl | ha2
      · exact hmax a (by simp)
      rcases List.mem_cons.mp ha2 with rfl | ha3
      · exact le_trans (le_of_lt hxy) (hmax x (by simp))
      · exact hmax a (by simp [ha3])
    · rw [if_neg hxy]
      obtain ⟨l2, m, heq, hmax⟩ := bpassN_last_max (y :: rest) (by simp)
      rw [show (y :: rest).length - 1 = rest.length by simp] at heq
      refine ⟨x :: l2, m, by rw [heq]; rfl, ?_⟩
      intro a ha
      rcases List.mem_cons.mp ha with rfl | ha2
      · exact le_trans (le_of_not_lt hxy) (hmax y (by simp))
      rcases List.mem_cons.mp ha2 with rfl | ha3
      · exact hmax a (by simp)
      · exact hmax a (by simp [ha3])
theorem take_set_of_le (l : List Nat) (i n v : Nat) (h : n ≤ i) :
    (l.set i v).take n = l.take n := by
  apply List.ext_getElem
  · simp
  · intro k h1 h2
    rw [List.getElem_take, List.getElem_take, List.getElem_set,
        if_neg (by simp at h1; omega)]

theorem drop_set_sub (l : List Nat) (i n v : Nat) (h : n ≤ i) :
    (l.set i v).drop n = (l.drop n).set (i - n) v := by
  apply List.ext_getElem
  · simp
  · intro k h1 h2
    rw [List.getElem_drop, List.getElem_set, List.getElem_set, List.getElem_drop]
    by_cases hik : i = n + k
    · rw [if_pos hik, if_pos (by omega)]
    · rw [if_neg hik, if_neg (by omega)]

theorem set_append_len (a : List Nat) (x v : Nat) (b : List Nat) :
    (a ++ x :: b).set a.length v = a ++ v :: b := by
  apply List.ext_getElem
  · simp
  · intro k h1 h2
    rw [List.getElem_set]
    by_cases hk : k < a.length
    · rw [if_neg (by omega), List.getElem_append_left hk, List.getElem_append_left hk]
    · by_cases hk2 : k = a.length
      · subst hk2
        rw [if_pos rfl, List.getElem_append_right (by omega)]
        simp
      · rw [if_neg (by omega), List.getElem_append_right (by omega),
            List.getElem_append_right (by omega)]
        have hlb : k - a.length < (x :: b).length := by
          simp at h2 ⊢
          omega
        have h3 : (x :: b)[k - a.length]? = (v :: b)[k - a.length]? := by
          obtain ⟨m, hm⟩ : ∃ m, k - a.length = m + 1 := ⟨k - a.length - 1, by omega⟩
          rw [hm]
          simp
        rw [List.getElem?_eq_getElem hlb, List.getElem?_eq_getElem (by simpa using hlb)]
          at h3
        exact Option.some_inj.mp h3
theorem swap_adj_take (data : List Nat) (j : Nat) (hj : j + 1 < data.length) :
    (list_swap data j (j + 1)).take (j + 1) =
      data.take j ++ [data.getD (j + 1) 0] := by
  have hjl : j < data.length := by omega
  rw [list_swap, take_set_of_le _ _ _ _ (le_refl (j+1)), List.set_take,
      ← List.take_concat_get' data j hjl]
  have hlen : (data.take j).length = j := by
    simp [List.length_take]
    omega
  rw [show (data.take j ++ [data[j]]).set j (data.getD (j+1) 0) =
        (data.take j ++ data[j] :: []).set (data.take j).length (data.getD (j+1) 0) from by
      rw [hlen],
    set_append_len]

theorem swap_adj_drop (data : List Nat) (j : Nat) (hj : j + 1 < data.length) :
    (list_swap data j (j + 1)).drop (j + 1) =
      data.getD j 0 :: data.drop (j + 2) := by
  rw [list_swap, drop_set_sub _ _ _ _ (le_refl (j+1)), Nat.sub_self,
      List.drop_set_of_lt _ _ (by omega : j < j + 1),
      List.drop_eq_getElem_cons hj]
  rfl

theorem bubble_inner_eq : ∀ (n : Nat) (data : List Nat) (size i j : Nat),
    size ≤ data.length → size - i - 1 - j = n →
    bubble_inner data size i j = data.take j ++ bpassN n (data.drop j) := by
  intro n
  induction n with
  | zero =>
    intro data size i j hsize hn
    rw [bubble_inner, if_neg (by omega), bpassN, List.take_append_drop]
  | succ k ih =>
    intro data size i j hsize hn
    have hjlt : j < size - i - 1 := by omega
    have hjlen : j + 1 < data.length := by omega
    have hjlen0 : j < data.length := by omega
    have hx : data.getD j 0 = data[j] := List.getD_eq_getElem data 0 hjlen0
    have hy : data.getD (j+1) 0 = data[j+1] := List.getD_eq_getElem data 0 hjlen
    have hdropj : data.drop j = data[j] :: data[j+1] :: data.drop (j+2) := by
      rw [List.drop_eq_getElem_cons hjlen0, List.drop_eq_getElem_cons hjlen]
    rw [bubble_inner, if_pos hjlt]
    by_cases hcmp : data.getD j 0 > data.getD (j + 1) 0
    · rw [if_pos hcmp]
      rw [ih (list_swap data j (j+1)) size i (j+1)
            (by rw [length_list_swap]; exact hsize) (by omega)]
      rw [swap_adj_take data j hjlen, swap_adj_drop data j hjlen]
      rw [hdropj, bpassN, if_pos (by rw [hx, hy] at hcmp; exact hcmp)]
      rw [hx, hy]
      simp
    · rw [if_neg hcmp]
      rw [ih data size i (j+1) hsize (by omega)]
      rw [hdropj, bpassN, if_neg (by rw [hx, hy] at hcmp; exact hcmp)]
      rw [← List.drop_eq_getElem_cons hjlen, ← List.take_concat_get' data j hjlen0]
      simp only [List.append_assoc, List.singleton_append]
theorem bubble_outer_spec : ∀ (k : Nat) (data front back : List Nat) (size i : Nat),
    size = data.length → size - i = k → i ≤ size →
    data = front ++ back → back.length = i →
    List.Sorted (· ≤ ·) back → (∀ a ∈ front, ∀ b ∈ back, a ≤ b) →
    List.Perm (bubble_outer data size i) data ∧
      List.Sorted (· ≤ ·) (bubble_outer data size i) := by
  intro k
  induction k with
  | zero =>
    intro data front back size i h1 h2 h3 hdecomp hblen hbsort hfb
    rw [bubble_outer, if_neg (by omega)]
    refine ⟨List.Perm.refl _, ?_⟩
    have hlen : data.length = front.length + back.length := by
      rw [hdecomp]; simp
    have hfront : front = [] := by
      have : front.length = 0 := by omega
      exact List.eq_nil_of_length_eq_zero this
    rw [hdecomp, hfront, List.nil_append]
    exact hbsort
  | succ k ih =>
    intro data front back size i h1 h2 h3 hdecomp hblen hbsort hfb
    have hilt : i < size := by omega
    have hlen : data.length = front.length + back.length := by
      rw [hdecomp]; simp
    have hfl : front.length = size - i := by omega
    have hfne : front ≠ [] := by
      intro hc
      rw [hc] at hfl
      simp at hfl
      omega
    rw [bubble_outer, if_pos hilt]
    have hinner : bubble_inner data size i 0 = bpassN (size - i - 1) data := by
      rw [bubble_inner_eq (size - i - 1) data size i 0 (by omega) (by omega)]
      simp
    obtain ⟨l2, m, hpass, hmax⟩ := bpassN_last_max front hfne
    rw [show front.length - 1 = size - i - 1 by omega] at hpass
    have hsplit : bubble_inner data size i 0 = l2 ++ (m :: back) := by
      rw [hinner, hdecomp, bpassN_append _ _ _ (by omega), hpass]
      simp
    have hpassperm : List.Perm (l2 ++ [m]) front := by
      rw [← hpass]
      exact bpassN_perm _ _
    have hmmem : m ∈ front := hpassperm.mem_iff.mp (by simp)
    have hl2mem : ∀ a ∈ l2, a ∈ front := fun a ha =>
      hpassperm.mem_iff.mp (by simp [ha])
    have hplen : l2.length + 1 = front.length := by
      have := hpassperm.length_eq
      simpa using this
    have hnew := ih (bubble_inner data size i 0) l2 (m :: back) size (i+1)
      (by rw [hsplit]; simp; omega)
      (by omega) (by omega) hsplit (by simp [hblen])
      (by
        rw [List.sorted_cons]
        exact ⟨fun b hb => hfb m hmmem b hb, hbsort⟩)
      (by
        intro a ha b hb
        rcases List.mem_cons.mp hb with rfl | hb2
        · exact hmax a (hl2mem a ha)
        · exact hfb a (hl2mem a ha) b hb2)
    refine ⟨hnew.1.trans ?_, hnew.2⟩
    rw [hsplit, hdecomp]
    have heq : l2 ++ m :: back = (l2 ++ [m]) ++ back := by simp
    rw [heq]
    exact hpassperm.append_right back

theorem bubble_sort_perm_sorted (data : List Nat) :
    List.Perm (bubble_sort data) data ∧
      List.Sorted (· ≤ ·) (bubble_sort data) := by
  have h := bubble_outer_spec data.length data data [] data.length 0 rfl (by simp)
    (by omega) (by simp) rfl List.sorted_nil (by simp)
  simpa [bubble_sort] using h
theorem length_slice (a b : Nat) (l : List Nat) :
    (slice a b l).length = min (b - a) (l.length - a) := by
  simp [SortBench.slice]

theorem getD_slice (a b k : Nat) (l : List Nat) (h1 : k < b - a) (h2 : a + k < l.length) :
    (slice a b l).getD k 0 = l.getD (a + k) 0 := by
  rw [List.getD_eq_getElem?_getD, List.getD_eq_getElem?_getD, SortBench.slice,
    List.getElem?_take, if_pos h1, List.getElem?_drop]

theorem slice_eq_of_agree (a b : Nat) (l l2 : List Nat)
    (hlen : l.length = l2.length)
    (h : ∀ k, a ≤ k → k < b → l.getD k 0 = l2.getD k 0) :
    slice a b l = slice a b l2 := by
  apply List.ext_getElem?
  intro k
  simp only [SortBench.slice, List.getElem?_take, List.getElem?_drop]
  by_cases hk : k < b - a
  · rw [if_pos hk, if_pos hk]
    by_cases hlt : a + k < l.length
    · have h1 := h (a + k) (by omega) (by omega)
      rw [List.getD_eq_getElem?_getD, List.getD_eq_getElem?_getD] at h1
      rw [List.getElem?_eq_getElem hlt, List.getElem?_eq_getElem (by omega : a + k < l2.length)]
      rw [List.getElem?_eq_getElem hlt, List.getElem?_eq_getElem (by omega : a + k < l2.length)] at h1
      simp only [Option.getD_some] at h1
      rw [h1]
    · rw [List.getElem?_eq_none (by omega), List.getElem?_eq_none (by omega)]
  · rw [if_neg hk, if_neg hk]

theorem mem_slice (x : Nat) (a b : Nat) (l : List Nat) (h : x ∈ slice a b l) :
    ∃ k, a ≤ k ∧ k < b ∧ k < l.length ∧ l.getD k 0 = x := by
  rw [List.mem_iff_getElem?] at h
  obtain ⟨i, hi⟩ := h
  rw [SortBench.slice, List.getElem?_take] at hi
  by_cases hlt : i < b - a
  · rw [if_pos hlt, List.getElem?_drop] at hi
    have hilen : a + i < l.length := by
      by_contra hc
      rw [List.getElem?_eq_none (by omega)] at hi
      exact Option.noConfusion hi
    refine ⟨a + i, by omega, by omega, hilen, ?_⟩
    rw [List.getD_eq_getElem?_getD, hi]
    rfl
  · rw [if_neg hlt] at hi
    exact Option.noConfusion hi

theorem slice_append_slice (a m b : Nat) (l : List Nat) (h1 : a ≤ m) (h2 : m ≤ b) :
    slice a b l = slice a m l ++ slice m b l := by
  have hsum : b - a = (m - a) + (b - m) := by omega
  rw [SortBench.slice, hsum, List.take_add, ← SortBench.slice]
  congr 1
  rw [SortBench.slice, List.drop_drop]
  congr 2
  omega

theorem slice_cons_getD (m b : Nat) (l : List Nat) (h1 : m < b) (h2 : m < l.length) :
    slice m b l = l.getD m 0 :: slice (m + 1) b l := by
  rw [SortBench.slice, List.drop_eq_getElem_cons h2]
  have hb : b - m = (b - (m + 1)) + 1 := by omega
  rw [hb, List.take_succ_cons, ← SortBench.slice, List.getD_eq_getElem l 0 h2]

theorem slice_zero_length (l : List Nat) : slice 0 l.length l = l := by
  simp [SortBench.slice]
theorem slice_swap_perm (a b i j : Nat) (l : List Nat)
    (hai : a ≤ i) (hib : i < b) (haj : a ≤ j) (hjb : j < b) (hb : b ≤ l.length) :
    List.Perm (slice a b (list_swap l i j)) (slice a b l) := by
  have hil : i < l.length := by omega
  have hjl : j < l.length := by omega
  have hslen : (slice a b l).length = b - a := by
    rw [length_slice]
    omega
  have heq : slice a b (list_swap l i j) = list_swap (slice a b l) (i - a) (j - a) := by
    apply List.ext_getElem
    · rw [length_slice, length_list_swap, length_list_swap, length_slice]
    · intro k hk1 hk2
      have hkb : k < b - a := by
        rw [length_slice, length_list_swap] at hk1
        omega
      have hakl : a + k < l.length := by omega
      rw [← List.getD_eq_getElem _ 0 hk1, ← List.getD_eq_getElem _ 0 hk2]
      rw [getD_slice a b k (list_swap l i j) hkb (by rw [length_list_swap]; omega)]
      rw [getD_list_swap l i j (a + k) hil hjl]
      rw [getD_list_swap (slice a b l) (i - a) (j - a) k (by omega) (by omega)]
      by_cases h1 : a + k = j
      · rw [if_pos h1, if_pos (by omega : k = j - a)]
        rw [getD_slice a b (i - a) l (by omega) (by omega)]
        congr 1
        omega
      · rw [if_neg h1, if_neg (by omega : ¬ k = j - a)]
        by_cases h2 : a + k = i
        · rw [if_pos h2, if_pos (by omega : k = i - a)]
          rw [getD_slice a b (j - a) l (by omega) (by omega)]
          congr 1
          omega
        · rw [if_neg h2, if_neg (by omega : ¬ k = i - a)]
          rw [getD_slice a b k l hkb hakl]
  rw [heq]
  exact list_swap_perm (slice a b l) (i - a) (j - a) (by omega) (by omega)

theorem partition_loop_spec : ∀ (n : Nat) (arr : List Nat) (pivot low high i1 j : Nat)
    (arr2 : List Nat) (r : Nat),
    partition_loop arr pivot low high i1 j = (arr2, r) →
    high - j = n → low ≤ i1 → i1 ≤ j → j ≤ high → high < arr.length →
    (∀ k, i1 ≤ k → k < j → pivot < arr.getD k 0) →
    arr2.length = arr.length ∧ i1 ≤ r ∧ r ≤ high ∧
    (∀ k, k < i1 → arr2.getD k 0 = arr.getD k 0) ∧
    (∀ k, high ≤ k → arr2.getD k 0 = arr.getD k 0) ∧
    List.Perm (slice i1 high arr2) (slice i1 high arr) ∧
    (∀ k, i1 ≤ k → k < r → arr2.getD k 0 ≤ pivot) ∧
    (∀ k, r ≤ k → k < high → pivot < arr2.getD k 0) := by
  intro n
  induction n with
  | zero =>
    intro arr pivot low high i1 j arr2 r hres hn h1 h2 h3 h4 hgt
    rw [partition_loop, if_neg (by omega : ¬ j < high)] at hres
    injection hres with he1 he2
    subst he1
    subst he2
    refine ⟨rfl, Nat.le_refl _, by omega, fun k _ => rfl, fun k _ => rfl,
      List.Perm.refl _, fun k hk1 hk2 => absurd hk2 (by omega), fun k hk1 hk2 => ?_⟩
    exact hgt k hk1 (by omega)
  | succ n ih =>
    intro arr pivot low high i1 j arr2 r hres hn h1 h2 h3 h4 hgt
    have hjh : j < high := by omega
    have hjl : j < arr.length := by omega
    have hi1l : i1 < arr.length := by omega
    rw [partition_loop, if_pos hjh] at hres
    by_cases hle : arr.getD j 0 ≤ pivot
    · rw [if_pos hle] at hres
      have hgts : ∀ k, i1 + 1 ≤ k → k < j + 1 → pivot < (list_swap arr i1 j).getD k 0 := by
        intro k hk1 hk2
        rw [getD_list_swap arr i1 j k hi1l hjl]
        by_cases hkj : k = j
        · rw [if_pos hkj]
          exact hgt i1 (Nat.le_refl _) (by omega)
        · rw [if_neg hkj, if_neg (by omega : ¬ k = i1)]
          exact hgt k (by omega) (by omega)
      obtain ⟨hL, hr1, hr2, hpres1, hpres2, hperm, hseg1, hseg2⟩ :=
        ih (list_swap arr i1 j) pivot low high (i1 + 1) (j + 1) arr2 r hres
          (by omega) (by omega) (by omega) (by omega)
          (by rw [length_list_swap]; omega) hgts
      have hswapat : ∀ k, k ≠ i1 → k ≠ j → (list_swap arr i1 j).getD k 0 = arr.getD k 0 := by
        intro k hk1 hk2
        rw [getD_list_swap arr i1 j k hi1l hjl, if_neg hk2, if_neg hk1]
      have hswapi1 : (list_swap arr i1 j).getD i1 0 = arr.getD j 0 := by
        rw [getD_list_swap arr i1 j i1 hi1l hjl]
        by_cases hij : i1 = j
        · rw [if_pos hij, hij]
        · rw [if_neg hij, if_pos rfl]
      refine ⟨by rw [hL, length_list_swap], by omega, hr2, ?_, ?_, ?_, ?_, hseg2⟩
      · intro k hk
        rw [hpres1 k (by omega), hswapat k (by omega) (by omega)]
      · intro k hk
        rw [hpres2 k hk, hswapat k (by omega) (by omega)]
      · have hc2 : slice i1 high arr2 = arr2.getD i1 0 :: slice (i1 + 1) high arr2 :=
          slice_cons_getD i1 high arr2 (by omega) (by rw [hL, length_list_swap]; omega)
        have hc3 : slice i1 high (list_swap arr i1 j) =
            (list_swap arr i1 j).getD i1 0 :: slice (i1 + 1) high (list_swap arr i1 j) :=
          slice_cons_getD i1 high (list_swap arr i1 j) (by omega)
            (by rw [length_list_swap]; omega)
        rw [hc2, hpres1 i1 (by omega)]
        refine List.Perm.trans ?_
          (slice_swap_perm i1 high i1 j arr (Nat.le_refl _) (by omega) h2 hjh (by omega))
        rw [hc3]
        exact List.Perm.cons _ hperm
      · intro k hk1 hk2
        by_cases hk : k = i1
        · subst hk
          rw [hpres1 k (by omega), hswapi1]
          exact hle
        · exact hseg1 k (by omega) hk2
    · rw [if_neg hle] at hres
      have hgts : ∀ k, i1 ≤ k → k < j + 1 → pivot < arr.getD k 0 := by
        intro k hk1 hk2
        by_cases hkj : k = j
        · subst hkj
          omega
        · exact hgt k hk1 (by omega)
      exact ih arr pivot low high i1 (j + 1) arr2 r hres
        (by omega) h1 (by omega) (by omega) h4 hgts
theorem partition_spec (arr : List Nat) (low high : Nat) (arr3 : List Nat) (r : Nat)
    (hres : partition arr low high = (arr3, r))
    (hlh : low ≤ high) (hhl : high < arr.length) :
    arr3.length = arr.length ∧ low ≤ r ∧ r ≤ high ∧
    (∀ k, k < low → arr3.getD k 0 = arr.getD k 0) ∧
    (∀ k, high < k → arr3.getD k 0 = arr.getD k 0) ∧
    List.Perm (slice low (high + 1) arr3) (slice low (high + 1) arr) ∧
    (∀ k, low ≤ k → k < r → arr3.getD k 0 ≤ arr3.getD r 0) ∧
    (∀ k, r < k → k ≤ high → arr3.getD r 0 < arr3.getD k 0) := by
  rw [partition] at hres
  set pivot := arr.getD high 0 with hpiv
  obtain ⟨arr2, i1, hloop⟩ :
      ∃ arr2 i1, partition_loop arr pivot low high low low = (arr2, i1) :=
    ⟨_, _, rfl⟩
  rw [hloop] at hres
  simp only [] at hres
  injection hres with he1 he2
  subst he2
  obtain ⟨hL, hr1, hr2, hpres1, hpres2, hperm, hseg1, hseg2⟩ :=
    partition_loop_spec (high - low) arr pivot low high low low arr2 i1 hloop
      rfl (Nat.le_refl _) (Nat.le_refl _) hlh hhl (fun k hk1 hk2 => absurd hk2 (by omega))
  have hrl : i1 < arr2.length := by omega
  have hhl2 : high < arr2.length := by omega
  have hswapat : ∀ k, k ≠ i1 → k ≠ high → arr3.getD k 0 = arr2.getD k 0 := by
    intro k hk1 hk2
    rw [← he1, getD_list_swap arr2 i1 high k hrl hhl2, if_neg hk2, if_neg hk1]
  have harr3r : arr3.getD i1 0 = pivot := by
    rw [← he1, getD_list_swap arr2 i1 high i1 hrl hhl2]
    by_cases hrh : i1 = high
    · rw [if_pos hrh, hrh, hpres2 high (Nat.le_refl _)]
    · rw [if_neg hrh, if_pos rfl, hpres2 high (Nat.le_refl _)]
  have harr3len : arr3.length = arr.length := by
    rw [← he1, length_list_swap, hL]
  refine ⟨harr3len, by omega, hr2, ?_, ?_, ?_, ?_, ?_⟩
  · intro k hk
    rw [hswapat k (by omega) (by omega), hpres1 k hk]
  · intro k hk
    rw [hswapat k (by omega) (by omega), hpres2 k (by omega)]
  · have hsw : List.Perm (slice low (high + 1) arr3) (slice low (high + 1) arr2) := by
      rw [← he1]
      exact slice_swap_perm low (high + 1) i1 high arr2 (by omega) (by omega) hlh
        (by omega) (by omega)
    refine hsw.trans ?_
    have hsplit2 : slice low (high + 1) arr2 =
        slice low high arr2 ++ slice high (high + 1) arr2 :=
      slice_append_slice low high (high + 1) arr2 hlh (by omega)
    have hsplit1 : slice low (high + 1) arr =
        slice low high arr ++ slice high (high + 1) arr :=
      slice_append_slice low high (high + 1) arr hlh (by omega)
    have hone : slice high (high + 1) arr2 = slice high (high + 1) arr := by
      apply slice_eq_of_agree _ _ _ _ hL
      intro k hk1 hk2
      exact hpres2 k hk1
    rw [hsplit2, hsplit1, hone]
    exact hperm.append_right _
  · intro k hk1 hk2
    rw [harr3r, hswapat k (by omega) (by omega)]
    exact hseg1 k hk1 hk2
  · intro k hk1 hk2
    rw [harr3r]
    by_cases hkh : k = high
    · rw [hkh, ← he1, getD_list_swap arr2 i1 high high hrl hhl2]
      by_cases hrh : i1 = high
      · omega
      · rw [if_pos rfl]
        exact hseg2 i1 (Nat.le_refl _) (by omega)
    · rw [hswapat k (by omega) hkh]
      exact hseg2 k (by omega) (by omega)
theorem slice_nil (a b : Nat) (l : List Nat) (h : b ≤ a) : slice a b l = [] := by
  have hz : b - a = 0 := by omega
  rw [SortBench.slice, hz, List.take_zero]

theorem sorted_of_length_le_one (l : List Nat) (h : l.length ≤ 1) :
    List.Sorted (· ≤ ·) l := by
  match l with
  | [] => exact List.sorted_nil
  | [x] => exact List.sorted_singleton x

theorem quick_sort_rec_spec : ∀ (fuel : Nat) (arr : List Nat) (low high : Nat),
    high < arr.length → high - low < fuel →
    (quick_sort_recursive fuel arr low high).length = arr.length ∧
    (∀ k, k < low → (quick_sort_recursive fuel arr low high).getD k 0 = arr.getD k 0) ∧
    (∀ k, high < k → (quick_sort_recursive fuel arr low high).getD k 0 = arr.getD k 0) ∧
    List.Perm (slice low (high + 1) (quick_sort_recursive fuel arr low high))
      (slice low (high + 1) arr) ∧
    List.Sorted (· ≤ ·) (slice low (high + 1) (quick_sort_recursive fuel arr low high)) := by
  intro fuel
  induction fuel with
  | zero =>
    intro arr low high h1 h2
    exact absurd h2 (by omega)
  | succ fuel ih =>
    intro arr low high h1 h2
    by_cases hlh : low < high
    · obtain ⟨B, r, hp⟩ : ∃ B r, partition arr low high = (B, r) := ⟨_, _, rfl⟩
      obtain ⟨hBlen, hlr, hrh, hBpre1, hBpre2, hBperm, hBle, hBgt⟩ :=
        partition_spec arr low high B r hp (by omega) h1
      have hunfold : quick_sort_recursive (fuel + 1) arr low high =
          quick_sort_recursive fuel (quick_sort_recursive fuel B low (r - 1))
            (r + 1) high := by
        simp only [quick_sort_recursive, if_pos hlh, hp]
      obtain ⟨h3len, h3pre1, h3pre2, h3perm, h3sort⟩ :=
        ih B low (r - 1) (by omega) (by omega)
      obtain ⟨h5len, h5pre1, h5pre2, h5perm, h5sort⟩ :=
        ih (quick_sort_recursive fuel B low (r - 1)) (r + 1) high
          (by rw [h3len]; omega) (by omega)
      have harr3r : (quick_sort_recursive fuel B low (r - 1)).getD r 0 = B.getD r 0 := by
        by_cases hr0 : r = 0
        · have hlow0 : low = 0 := by omega
          have hBpos : 0 < B.length := by omega
          have h3pos : 0 < (quick_sort_recursive fuel B low (r - 1)).length := by
            rw [h3len]; omega
          have e0 : ∀ X : List Nat, 0 < X.length →
              slice low (r - 1 + 1) X = [X.getD 0 0] := by
            intro X hX
            rw [hlow0, show r - 1 + 1 = 1 from by omega]
            rw [slice_cons_getD 0 1 X (by omega) hX]
            rw [slice_nil 1 1 X (Nat.le_refl _)]
          rw [e0 _ h3pos, e0 _ hBpos] at h3perm
          have hinj : (quick_sort_recursive fuel B low (r - 1)).getD 0 0 = B.getD 0 0 := by
            injection List.perm_singleton.mp h3perm
          rw [hr0] at hinj ⊢
          exact hinj
        · exact h3pre2 r (by omega)
      have harr5r :
          (quick_sort_recursive fuel (quick_sort_recursive fuel B low (r - 1))
            (r + 1) high).getD r 0 = B.getD r 0 := by
        rw [h5pre1 r (by omega), harr3r]
      have hAeq : slice low r (quick_sort_recursive fuel
            (quick_sort_recursive fuel B low (r - 1)) (r + 1) high) =
          slice low r (quick_sort_recursive fuel B low (r - 1)) :=
        slice_eq_of_agree _ _ _ _ h5len (fun k _ hk2 => h5pre1 k (by omega))
      have hC3eq : slice (r + 1) (high + 1) (quick_sort_recursive fuel B low (r - 1)) =
          slice (r + 1) (high + 1) B :=
        slice_eq_of_agree _ _ _ _ h3len (fun k hk1 _ => h3pre2 k (by omega))
      have hAperm : List.Perm (slice low r (quick_sort_recursive fuel
            (quick_sort_recursive fuel B low (r - 1)) (r + 1) high))
          (slice low r B) := by
        rw [hAeq]
        by_cases hr0 : r = 0
        · rw [slice_nil low r _ (by omega), slice_nil low r _ (by omega)]
        · rw [show r - 1 + 1 = r from by omega] at h3perm
          exact h3perm
      have hsortA : List.Sorted (· ≤ ·) (slice low r (quick_sort_recursive fuel
            (quick_sort_recursive fuel B low (r - 1)) (r + 1) high)) := by
        rw [hAeq]
        by_cases hr0 : r = 0
        · rw [slice_nil low r _ (by omega)]
          exact List.sorted_nil
        · rw [show r - 1 + 1 = r from by omega] at h3sort
          exact h3sort
      have hAmem : ∀ a ∈ slice low r (quick_sort_recursive fuel
            (quick_sort_recursive fuel B low (r - 1)) (r + 1) high),
          a ≤ B.getD r 0 := by
        intro a ha
        have haB := hAperm.mem_iff.mp ha
        obtain ⟨k, hk1, hk2, hk3, hk4⟩ := mem_slice a low r B haB
        rw [← hk4]
        exact hBle k hk1 hk2
      have hCmem : ∀ b ∈ slice (r + 1) (high + 1) (quick_sort_recursive fuel
            (quick_sort_recursive fuel B low (r - 1)) (r + 1) high),
          B.getD r 0 < b := by
        intro b hb
        have hbB := (h5perm.mem_iff.mp hb)
        rw [hC3eq] at hbB
        obtain ⟨k, hk1, hk2, hk3, hk4⟩ := mem_slice b (r + 1) (high + 1) B hbB
        rw [← hk4]
        exact hBgt k (by omega) (by omega)
      have hlen5 : (quick_sort_recursive fuel (quick_sort_recursive fuel B low (r - 1))
          (r + 1) high).length = arr.length := by
        rw [h5len, h3len, hBlen]
      have hdec5 : slice low (high + 1) (quick_sort_recursive fuel
            (quick_sort_recursive fuel B low (r - 1)) (r + 1) high) =
          slice low r (quick_sort_recursive fuel
            (quick_sort_recursive fuel B low (r - 1)) (r + 1) high) ++
          (quick_sort_recursive fuel (quick_sort_recursive fuel B low (r - 1))
            (r + 1) high).getD r 0 ::
          slice (r + 1) (high + 1) (quick_sort_recursive fuel
            (quick_sort_recursive fuel B low (r - 1)) (r + 1) high) := by
        rw [slice_append_slice low r (high + 1) _ (by omega) (by omega)]
        rw [slice_cons_getD r (high + 1) _ (by omega) (by rw [hlen5]; omega)]
      have hdecB : slice low (high + 1) B =
          slice low r B ++ B.getD r 0 :: slice (r + 1) (high + 1) B := by
        rw [slice_append_slice low r (high + 1) _ (by omega) (by omega)]
        rw [slice_cons_getD r (high + 1) _ (by omega) (by omega)]
      rw [hunfold]
      refine ⟨hlen5, ?_, ?_, ?_, ?_⟩
      · intro k hk
        rw [h5pre1 k (by omega), h3pre1 k hk, hBpre1 k hk]
      · intro k hk
        rw [h5pre2 k hk, h3pre2 k (by omega), hBpre2 k hk]
      · have hP1 : List.Perm (slice low (high + 1) (quick_sort_recursive fuel
              (quick_sort_recursive fuel B low (r - 1)) (r + 1) high))
            (slice low (high + 1) B) := by
          rw [hdec5, hdecB, harr5r]
          refine hAperm.append (List.Perm.cons _ ?_)
          rw [← hC3eq]
          exact h5perm
        exact hP1.trans hBperm
      · rw [hdec5, harr5r]
        refine List.pairwise_append.mpr ⟨hsortA, ?_, ?_⟩
        · refine List.pairwise_cons.mpr ⟨fun b hb => Nat.le_of_lt (hCmem b hb), h5sort⟩
        · intro a ha b hb
          rcases List.mem_cons.mp hb with rfl | hb2
          · exact hAmem a ha
          · exact Nat.le_trans (hAmem a ha) (Nat.le_of_lt (hCmem b hb2))
    · have hunfold : quick_sort_recursive (fuel + 1) arr low high = arr := by
        simp only [quick_sort_recursive, if_neg hlh]
      rw [hunfold]
      refine ⟨rfl, fun k _ => rfl, fun k _ => rfl, List.Perm.refl _, ?_⟩
      apply sorted_of_length_le_one
      rw [length_slice]
      omega
theorem slice_zero_of_le (b : Nat) (l : List Nat) (h : l.length ≤ b) :
    slice 0 b l = l := by
  rw [SortBench.slice, List.drop_zero, Nat.sub_zero, List.take_of_length_le h]

theorem quick_sort_perm_sorted (data : List Nat) :
    List.Perm (quick_sort data) data ∧ List.Sorted (· ≤ ·) (quick_sort data) := by
  match data with
  | [] =>
    exact ⟨List.Perm.refl _, List.sorted_nil⟩
  | x :: rest =>
    obtain ⟨hlen, hpre1, hpre2, hperm, hsort⟩ :=
      quick_sort_rec_spec ((x :: rest).length + 1) (x :: rest) 0 ((x :: rest).length - 1)
        (by simp) (by omega)
    have hidx : (x :: rest).length - 1 + 1 = (x :: rest).length := by
      simp
    rw [hidx] at hperm hsort
    have he1 : slice 0 (x :: rest).length
        (quick_sort_recursive ((x :: rest).length + 1) (x :: rest) 0
          ((x :: rest).length - 1)) =
        quick_sort_recursive ((x :: rest).length + 1) (x :: rest) 0
          ((x :: rest).length - 1) :=
      slice_zero_of_le _ _ (Nat.le_of_eq hlen)
    have he2 : slice 0 (x :: rest).length (x :: rest) = x :: rest :=
      slice_zero_length _
    rw [he1, he2] at hperm
    rw [he1] at hsort
    rw [quick_sort]
    exact ⟨hperm, hsort⟩
theorem count_eq_cons (x : Nat) (l : List Nat) (exp d : Nat) :
    count_eq (x :: l) exp d = count_eq l exp d + (if digit exp x = d then 1 else 0) := by
  by_cases h : digit exp x = d
  · simp [count_eq, List.filter_cons, h]
  · simp [count_eq, List.filter_cons, h]

theorem count_lt_cons (x : Nat) (l : List Nat) (exp d : Nat) :
    count_lt (x :: l) exp d = count_lt l exp d + (if digit exp x < d then 1 else 0) := by
  by_cases h : digit exp x < d
  · simp [count_lt, List.filter_cons, h]
  · simp [count_lt, List.filter_cons, h]

theorem count_lt_zero (arr : List Nat) (exp : Nat) : count_lt arr exp 0 = 0 := by
  simp [count_lt]

theorem count_lt_succ : ∀ (arr : List Nat) (exp d : Nat),
    count_lt arr exp (d + 1) = count_lt arr exp d + count_eq arr exp d
  | [], _, _ => rfl
  | x :: l, exp, d => by
    rw [count_lt_cons, count_lt_cons, count_eq_cons, count_lt_succ l exp d]
    by_cases h1 : digit exp x < d
    · rw [if_pos (by omega), if_pos h1, if_neg (by omega)]
      omega
    · by_cases h2 : digit exp x = d
      · rw [if_pos (by omega), if_neg h1, if_pos h2]
        omega
      · rw [if_neg (by omega), if_neg h1, if_neg h2]
        omega

theorem count_lt_ten (arr : List Nat) (exp : Nat) : count_lt arr exp 10 = arr.length := by
  have h : arr.filter (fun x => digit exp x < 10) = arr := by
    apply List.filter_eq_self.mpr
    intro a _
    simp only [digit, decide_eq_true_eq]
    omega
  rw [count_lt, h]

theorem count_lt_mono (arr : List Nat) (exp : Nat) :
    ∀ d d2, d ≤ d2 → count_lt arr exp d ≤ count_lt arr exp d2 := by
  intro d d2 h
  induction d2 with
  | zero =>
    have hz : d = 0 := by omega
    rw [hz]
  | succ n ihn =>
    by_cases hd : d = n + 1
    · rw [hd]
    · have h2 := ihn (by omega)
      rw [count_lt_succ]
      omega

theorem count_eq_take_le (l : List Nat) (k exp d : Nat) :
    count_eq (l.take k) exp d ≤ count_eq l exp d := by
  conv_rhs => rw [← List.take_append_drop k l]
  rw [count_eq, count_eq, List.filter_append, List.length_append]
  exact Nat.le_add_right _ _

theorem count_eq_take_succ (arr : List Nat) (k exp d : Nat) (hk : k < arr.length) :
    count_eq (arr.take (k + 1)) exp d =
      count_eq (arr.take k) exp d + (if digit exp (arr.getD k 0) = d then 1 else 0) := by
  have hg : arr.getD k 0 = arr[k] := List.getD_eq_getElem arr 0 hk
  rw [← List.take_concat_get' arr k hk, count_eq, count_eq, List.filter_append,
    List.length_append, hg]
  by_cases h : digit exp arr[k] = d
  · rw [if_pos h]
    simp [List.filter_singleton, h]
  · rw [if_neg h]
    simp [List.filter_singleton, h]

theorem radix_count_spec : ∀ (l : List Nat) (exp : Nat) (c : List Nat),
    c.length = 10 →
    (radix_count l exp c).length = 10 ∧
    (∀ d, d < 10 → (radix_count l exp c).getD d 0 = c.getD d 0 + count_eq l exp d)
  | [], exp, c, hc => ⟨hc, fun d _ => by simp [radix_count, count_eq]⟩
  | x :: l, exp, c, hc => by
    rw [radix_count]
    have hd0lt : x / exp % 10 < 10 := by omega
    obtain ⟨hL, hG⟩ :=
      radix_count_spec l exp (c.set (x / exp % 10) (c.getD (x / exp % 10) 0 + 1))
        (by simp [hc])
    refine ⟨hL, fun d hd => ?_⟩
    rw [hG d hd, count_eq_cons]
    by_cases h : x / exp % 10 = d
    · rw [← h, getD_set_eq c (x / exp % 10) _ (by omega)]
      rw [if_pos (by simp [digit, h])]
      omega
    · rw [getD_set_ne c (x / exp % 10) d _ h]
      rw [if_neg (by simp [digit]; omega)]
      omega

theorem radix_prefix_spec : ∀ (m : Nat) (c : List Nat) (i : Nat) (arr : List Nat) (exp : Nat),
    10 - i = m → 1 ≤ i → c.length = 10 →
    (∀ d, d < i → c.getD d 0 = count_lt arr exp (d + 1)) →
    (∀ d, i ≤ d → d < 10 → c.getD d 0 = count_eq arr exp d) →
    ( radix_prefix c i).length = 10 ∧
    (∀ d, d < 10 → ( radix_prefix c i).getD d 0 = count_lt arr exp (d + 1)) := by
  intro m
  induction m with
  | zero =>
    intro c i arr exp hm hi hc hpre hpost
    rw [ radix_prefix, if_neg (by omega)]
    exact ⟨hc, fun d hd => hpre d (by omega)⟩
  | succ n ih =>
    intro c i arr exp hm hi hc hpre hpost
    have hilt : i < 10 := by omega
    rw [ radix_prefix, if_pos hilt]
    have hvi : c.getD i 0 = count_eq arr exp i := hpost i (Nat.le_refl _) hilt
    have hvi1 : c.getD (i - 1) 0 = count_lt arr exp i := by
      have := hpre (i - 1) (by omega)
      rw [this, show i - 1 + 1 = i from by omega]
    apply ih _ (i + 1) arr exp (by omega) (by omega) (by simp [hc])
    · intro d hd
      by_cases hdi : d = i
      · rw [hdi, getD_set_eq c i _ (by omega), hvi, hvi1, count_lt_succ]
        omega
      · rw [getD_set_ne c i d _ (by omega)]
        exact hpre d (by omega)
    · intro d hd1 hd2
      rw [getD_set_ne c i d _ (by omega)]
      exact hpost d (by omega) hd2
theorem filter_take_getD (arr : List Nat) (exp k d : Nat) (hk : k < arr.length)
    (hd : digit exp (arr.getD k 0) = d) :
    (arr.filter (fun x => digit exp x = d)).getD (count_eq (arr.take k) exp d) 0 =
      arr.getD k 0 := by
  have hg : arr.getD k 0 = arr[k] := List.getD_eq_getElem arr 0 hk
  have hs : arr.filter (fun x => digit exp x = d) =
      (arr.take (k + 1)).filter (fun x => digit exp x = d) ++
      (arr.drop (k + 1)).filter (fun x => digit exp x = d) := by
    rw [← List.filter_append, List.take_append_drop]
  have ht : arr.take (k + 1) = arr.take k ++ [arr[k]] :=
    (List.take_concat_get' arr k hk).symm
  have hdg : digit exp arr[k] = d := by
    rw [← hg]
    exact hd
  have hfone : [arr[k]].filter (fun x => digit exp x = d) = [arr[k]] := by
    simp [List.filter_singleton, hdg]
  rw [hs, ht, List.filter_append, hfone, List.append_assoc]
  rw [show count_eq (List.take k arr) exp d =
    ((List.take k arr).filter (fun x => digit exp x = d)).length from rfl]
  rw [List.getD_append_right _ _ 0 _ (Nat.le_refl _), Nat.sub_self]
  rw [List.singleton_append, List.getD_cons_zero, hg]

theorem radix_place_spec : ∀ (k : Nat) (arr : List Nat) (exp : Nat)
    (output count : List Nat),
    k ≤ arr.length →
    output.length = arr.length →
    count.length = 10 →
    (∀ d, d < 10 → count.getD d 0 =
      count_lt arr exp d + count_eq (arr.take k) exp d) →
    (∀ d, d < 10 → ∀ m, count_eq (arr.take k) exp d ≤ m → m < count_eq arr exp d →
      output.getD (count_lt arr exp d + m) 0 =
        (arr.filter (fun x => digit exp x = d)).getD m 0) →
    (radix_place arr exp k output count).1.length = arr.length ∧
    (∀ d, d < 10 → ∀ m, m < count_eq arr exp d →
      (radix_place arr exp k output count).1.getD (count_lt arr exp d + m) 0 =
        (arr.filter (fun x => digit exp x = d)).getD m 0) := by
  intro k
  induction k with
  | zero =>
    intro arr exp output count hk holen hclen hcnt hout
    refine ⟨holen, fun d hd m hm => ?_⟩
    have h0 : count_eq (arr.take 0) exp d = 0 := by
      simp [count_eq]
    exact hout d hd m (by omega) hm
  | succ k ih =>
    intro arr exp output count hk holen hclen hcnt hout
    have hklt : k < arr.length := by omega
    have hstep : radix_place arr exp (k + 1) output count =
        radix_place arr exp k
          (output.set (count.getD (arr.getD k 0 / exp % 10) 0 - 1) (arr.getD k 0))
          (count.set (arr.getD k 0 / exp % 10)
            (count.getD (arr.getD k 0 / exp % 10) 0 - 1)) := rfl
    rw [hstep]
    generalize hD : arr.getD k 0 / exp % 10 = D
    have hDlt : D < 10 := by omega
    have hdigD : digit exp (arr.getD k 0) = D := by
      rw [digit]
      exact hD
    have hEsucc : ∀ d, count_eq (arr.take (k + 1)) exp d =
        count_eq (arr.take k) exp d +
          (if digit exp (arr.getD k 0) = d then 1 else 0) :=
      fun d => count_eq_take_succ arr k exp d hklt
    have hcd0 : count.getD D 0 =
        count_lt arr exp D + count_eq (arr.take k) exp D + 1 := by
      rw [hcnt D hDlt, hEsucc D, if_pos hdigD]
      omega
    have hEk_lt : count_eq (arr.take k) exp D < count_eq arr exp D := by
      have h1 : count_eq (arr.take (k + 1)) exp D ≤ count_eq arr exp D :=
        count_eq_take_le arr (k + 1) exp D
      rw [hEsucc D, if_pos hdigD] at h1
      omega
    have hbound : ∀ d, d < 10 →
        count_lt arr exp d + count_eq arr exp d ≤ arr.length := by
      intro d hd
      rw [← count_lt_succ, ← count_lt_ten arr exp]
      exact count_lt_mono arr exp _ _ (by omega)
    have hposlt : count.getD D 0 - 1 < output.length := by
      have := hbound D hDlt
      omega
    apply ih arr exp _ _ (by omega) (by simp [holen]) (by simp [hclen])
    · intro d hd
      by_cases hdd : d = D
      · rw [hdd, getD_set_eq count D _ (by omega)]
        omega
      · rw [getD_set_ne count D d _ (by omega)]
        rw [hcnt d hd, hEsucc d, if_neg (by rw [hdigD]; omega)]
        omega
    · intro d hd m hm1 hm2
      by_cases hdd : d = D
      · by_cases hmm : m = count_eq (arr.take k) exp D
        · rw [hdd, hmm]
          rw [show count_lt arr exp D + count_eq (arr.take k) exp D =
            count.getD D 0 - 1 from by omega]
          rw [getD_set_eq output _ _ hposlt]
          exact (filter_take_getD arr exp k D hklt hdigD).symm
        · rw [getD_set_ne output _ _ _ (by rw [hdd] at hm1 ⊢; omega)]
          apply hout d hd m _ hm2
          rw [hEsucc d, hdd, if_pos hdigD]
          rw [hdd] at hm1
          omega
      · have hne : count.getD D 0 - 1 ≠ count_lt arr exp d + m := by
          have hb1 := hbound d hd
          have hb2 := hbound D hDlt
          rcases Nat.lt_or_ge d D with hlt | hge
          · have hm1' : count_lt arr exp (d + 1) ≤ count_lt arr exp D :=
              count_lt_mono arr exp _ _ (by omega)
            rw [count_lt_succ] at hm1'
            omega
          · have hDd : D < d := by omega
            have hm2' : count_lt arr exp (D + 1) ≤ count_lt arr exp d :=
              count_lt_mono arr exp _ _ (by omega)
            rw [count_lt_succ] at hm2'
            omega
        rw [getD_set_ne output _ _ _ hne]
        apply hout d hd m _ hm2
        rw [hEsucc d, if_neg (by rw [hdigD]; omega)]
        omega
theorem flatMap_range_length (arr : List Nat) (exp : Nat) : ∀ t : Nat,
    ((List.range t).flatMap (fun d => arr.filter (fun x => digit exp x = d))).length =
      count_lt arr exp t := by
  intro t
  induction t with
  | zero =>
    rw [count_lt_zero]
    rfl
  | succ n ihn =>
    rw [List.range_succ, List.flatMap_append, List.length_append, ihn, count_lt_succ]
    congr 1
    simp [count_eq]

theorem getD_append_len (l1 l2 : List Nat) (m : Nat) :
    (l1 ++ l2).getD (l1.length + m) 0 = l2.getD m 0 := by
  rw [List.getD_append_right _ _ 0 _ (by omega), Nat.add_sub_cancel_left]

theorem buckets_getD (arr : List Nat) (exp d m : Nat) (hd : d < 10)
    (hm : m < count_eq arr exp d) :
    (buckets arr exp).getD (count_lt arr exp d + m) 0 =
      (arr.filter (fun x => digit exp x = d)).getD m 0 := by
  have hsplit : List.range 10 = List.range d ++
      List.map (fun x => d + x) (List.range (10 - d)) := by
    rw [← List.range_add]
    congr 1
    omega
  have hsub : 10 - d = (10 - d - 1) + 1 := by omega
  rw [buckets, hsplit, List.flatMap_append]
  have hhead : List.map (fun x => d + x) (List.range (10 - d)) =
      d :: List.map (fun x => d + x.succ) (List.range (10 - d - 1)) := by
    rw [hsub, List.range_succ_eq_map, List.map_cons, List.map_map]
    rfl
  rw [hhead, List.flatMap_cons]
  rw [show count_lt arr exp d =
    ((List.range d).flatMap (fun d => arr.filter (fun x => digit exp x = d))).length
    from (flatMap_range_length arr exp d).symm]
  rw [getD_append_len]
  rw [List.getD_append _ _ 0 m (by rw [show (arr.filter (fun x => digit exp x = d)).length
    = count_eq arr exp d from rfl]; omega)]

theorem buckets_length (arr : List Nat) (exp : Nat) :
    (buckets arr exp).length = arr.length := by
  rw [buckets, flatMap_range_length arr exp 10, count_lt_ten]

theorem index_in_bucket (arr : List Nat) (exp : Nat) : ∀ (t : Nat) (j : Nat),
    j < count_lt arr exp t →
    ∃ d, d < t ∧ count_lt arr exp d ≤ j ∧
      j < count_lt arr exp d + count_eq arr exp d := by
  intro t
  induction t with
  | zero =>
    intro j hj
    rw [count_lt_zero] at hj
    omega
  | succ n ihn =>
    intro j hj
    by_cases hlt : j < count_lt arr exp n
    · obtain ⟨d, h1, h2, h3⟩ := ihn j hlt
      exact ⟨d, by omega, h2, h3⟩
    · refine ⟨n, by omega, by omega, ?_⟩
      rw [count_lt_succ] at hj
      omega

theorem getD_replicate_zero (n m : Nat) : (List.replicate n 0).getD m 0 = 0 := by
  rw [List.getD_eq_getElem?_getD, List.getElem?_replicate]
  by_cases h : m < n
  · rw [if_pos h]
    rfl
  · rw [if_neg h]
    rfl

theorem counting_pass_eq_buckets (arr : List Nat) (exp : Nat) :
    counting_sort_for_radix arr exp = buckets arr exp := by
  rw [counting_sort_for_radix]
  obtain ⟨hc1len, hc1val⟩ :=
    radix_count_spec arr exp (List.replicate 10 0) (by simp)
  have hc1 : ∀ d, d < 10 →
      (radix_count arr exp (List.replicate 10 0)).getD d 0 = count_eq arr exp d := by
    intro d hd
    rw [hc1val d hd, getD_replicate_zero]
    omega
  obtain ⟨hc2len, hc2val⟩ :=
    radix_prefix_spec 9 (radix_count arr exp (List.replicate 10 0)) 1 arr exp
      (by omega) (by omega) hc1len
      (by
        intro d hd
        have hd0 : d = 0 := by omega
        rw [hd0, hc1 0 (by omega), count_lt_succ, count_lt_zero]
        omega)
      (fun d hd1 hd2 => hc1 d hd2)
  obtain ⟨hplen, hpval⟩ :=
    radix_place_spec arr.length arr exp (List.replicate arr.length 0)
      ( radix_prefix (radix_count arr exp (List.replicate 10 0)) 1)
      (Nat.le_refl _) (by simp) hc2len
      (by
        intro d hd
        rw [hc2val d hd, count_lt_succ, List.take_length])
      (by
        intro d hd m hm1 hm2
        rw [List.take_length] at hm1
        omega)
  apply List.ext_getElem
  · rw [hplen, buckets_length]
  · intro j hj1 hj2
    have hjlen : j < arr.length := by
      rw [hplen] at hj1
      exact hj1
    obtain ⟨d, hd, hdj1, hdj2⟩ :=
      index_in_bucket arr exp 10 j (by rw [count_lt_ten]; exact hjlen)
    rw [← List.getD_eq_getElem _ 0 hj1, ← List.getD_eq_getElem _ 0 hj2]
    rw [show j = count_lt arr exp d + (j - count_lt arr exp d) from by omega]
    rw [hpval d hd (j - count_lt arr exp d) (by omega)]
    rw [buckets_getD arr exp d (j - count_lt arr exp d) hd (by omega)]
theorem filter_digit_split (arr : List Nat) (exp n : Nat) :
    List.Perm (arr.filter (fun x => digit exp x < n + 1))
      (arr.filter (fun x => digit exp x < n) ++
        arr.filter (fun x => digit exp x = n)) := by
  induction arr with
  | nil => simp
  | cons x l ih =>
    rw [List.filter_cons, List.filter_cons, List.filter_cons]
    rcases Nat.lt_trichotomy (digit exp x) n with h | h | h
    · rw [if_pos (by simp; omega), if_pos (by simp; omega), if_neg (by simp; omega)]
      exact ih.cons x
    · rw [if_pos (by simp; omega), if_neg (by simp; omega), if_pos (by simp [h])]
      exact (ih.cons x).trans List.perm_middle.symm
    · rw [if_neg (by simp; omega), if_neg (by simp; omega), if_neg (by simp; omega)]
      exact ih

theorem flatMap_range_perm (arr : List Nat) (exp : Nat) : ∀ n : Nat,
    List.Perm ((List.range n).flatMap (fun d => arr.filter (fun x => digit exp x = d)))
      (arr.filter (fun x => digit exp x < n)) := by
  intro n
  induction n with
  | zero =>
    rw [show arr.filter (fun x => digit exp x < 0) = [] from
      List.filter_eq_nil_iff.mpr (fun a _ => by simp)]
    exact List.Perm.refl _
  | succ n ihn =>
    rw [List.range_succ, List.flatMap_append]
    refine List.Perm.trans ?_ (filter_digit_split arr exp n).symm
    refine ihn.append ?_
    rw [List.flatMap_cons, List.flatMap_nil, List.append_nil]

theorem buckets_perm (arr : List Nat) (exp : Nat) :
    List.Perm (buckets arr exp) arr := by
  have h10 := flatMap_range_perm arr exp 10
  have hall : arr.filter (fun x => digit exp x < 10) = arr :=
    List.filter_eq_self.mpr (fun a _ => by simp [digit]; omega)
  rw [hall] at h10
  rw [buckets]
  exact h10

theorem buckets_sorted (arr : List Nat) (exp : Nat) (hexp : 0 < exp)
    (hs : List.Sorted (fun a b => a % exp ≤ b % exp) arr) :
    List.Sorted (fun a b => a % (exp * 10) ≤ b % (exp * 10)) (buckets arr exp) := by
  have hkey : ∀ x : Nat, x % (exp * 10) = x % exp + exp * digit exp x := by
    intro x
    rw [digit, Nat.mod_mul]
  have hbucket : ∀ d : Nat, List.Sorted (fun a b => a % (exp * 10) ≤ b % (exp * 10))
      (arr.filter (fun x => digit exp x = d)) := by
    intro d
    have hps : (arr.filter (fun x => digit exp x = d)).Pairwise
        (fun a b => a % exp ≤ b % exp) := List.Pairwise.filter _ hs
    refine List.Pairwise.imp_of_mem ?_ hps
    intro a b ha hb hab
    have hda : digit exp a = d := by
      have := (List.mem_filter.mp ha).2
      simpa using this
    have hdb : digit exp b = d := by
      have := (List.mem_filter.mp hb).2
      simpa using this
    rw [hkey a, hkey b, hda, hdb]
    omega
  have hcross : ∀ d1 d2 : Nat, d1 < d2 →
      ∀ a ∈ arr.filter (fun x => digit exp x = d1),
      ∀ b ∈ arr.filter (fun x => digit exp x = d2),
      a % (exp * 10) ≤ b % (exp * 10) := by
    intro d1 d2 hdd a ha b hb
    have hda : digit exp a = d1 := by
      have := (List.mem_filter.mp ha).2
      simpa using this
    have hdb : digit exp b = d2 := by
      have := (List.mem_filter.mp hb).2
      simpa using this
    have hma : a % exp < exp := Nat.mod_lt _ hexp
    have hstep : exp * (d1 + 1) ≤ exp * d2 := Nat.mul_le_mul_left _ (by omega)
    have hmul : exp * (d1 + 1) = exp * d1 + exp := by ring
    rw [hkey a, hkey b, hda, hdb]
    omega
  have hmain : ∀ n : Nat, List.Sorted (fun a b => a % (exp * 10) ≤ b % (exp * 10))
      ((List.range n).flatMap (fun d => arr.filter (fun x => digit exp x = d))) := by
    intro n
    induction n with
    | zero => exact List.sorted_nil
    | succ n ihn =>
      rw [List.range_succ, List.flatMap_append, List.flatMap_cons, List.flatMap_nil,
        List.append_nil]
      refine List.pairwise_append.mpr ⟨ihn, hbucket n, ?_⟩
      intro a ha b hb
      obtain ⟨d, hdmem, hdfa⟩ := List.mem_flatMap.mp ha
      have hdn : d < n := List.mem_range.mp hdmem
      exact hcross d n hdn a hdfa b hb
  rw [buckets]
  exact hmain 10
theorem find_max_ge_init : ∀ (l : List Nat) (m : Nat), m ≤ find_max l m
  | [], m => Nat.le_refl m
  | x :: l, m => by
    rw [find_max]
    refine Nat.le_trans ?_ (find_max_ge_init l _)
    by_cases h : x > m
    · rw [if_pos h]
      omega
    · rw [if_neg h]

theorem find_max_ge_mem : ∀ (l : List Nat) (m x : Nat), x ∈ l → x ≤ find_max l m
  | [], _, x, hx => absurd hx (List.not_mem_nil x)
  | x0 :: l, m, x, hx => by
    rw [find_max]
    rcases List.mem_cons.mp hx with rfl | h2
    · refine Nat.le_trans ?_ (find_max_ge_init l _)
      by_cases h : x > m
      · rw [if_pos h]
      · rw [if_neg h]
        omega
    · exact find_max_ge_mem l _ x h2

theorem sorted_of_sorted_mod (l : List Nat) (exp : Nat) (hexp : 0 < exp)
    (hmax : ∀ x ∈ l, x < exp)
    (hs : List.Sorted (fun a b => a % exp ≤ b % exp) l) :
    List.Sorted (· ≤ ·) l := by
  refine List.Pairwise.imp_of_mem ?_ hs
  intro a b ha hb hab
  rw [Nat.mod_eq_of_lt (hmax a ha), Nat.mod_eq_of_lt (hmax b hb)] at hab
  exact hab

theorem radix_loop_spec : ∀ (n : Nat) (l : List Nat) (max exp : Nat),
    max / exp ≤ n → 0 < exp →
    (∀ x ∈ l, x ≤ max) →
    List.Sorted (fun a b => a % exp ≤ b % exp) l →
    List.Perm (radix_loop l max exp) l ∧
      List.Sorted (· ≤ ·) (radix_loop l max exp) := by
  intro n
  induction n with
  | zero =>
    intro l max exp hfuel hexp hmax hs
    rw [radix_loop, if_neg (by omega)]
    refine ⟨List.Perm.refl _, ?_⟩
    have hlt : max < exp := by
      have h0 : max / exp = 0 := Nat.le_zero.mp hfuel
      exact (Nat.div_eq_zero_iff hexp).mp h0
    exact sorted_of_sorted_mod l exp hexp (fun x hx => by
      have := hmax x hx
      omega) hs
  | succ n ih =>
    intro l max exp hfuel hexp hmax hs
    by_cases hcond : 0 < max / exp
    · rw [radix_loop, if_pos hcond]
      have hpass : counting_sort_for_radix l exp = buckets l exp :=
        counting_pass_eq_buckets l exp
      have hbperm : List.Perm (buckets l exp) l := buckets_perm l exp
      have hfuel2 : max / (exp * 10) ≤ n := by
        have hdd : max / (exp * 10) = max / exp / 10 := by
          rw [Nat.div_div_eq_div_mul]
        have hlt : max / exp / 10 < max / exp := Nat.div_lt_self hcond (by omega)
        omega
      obtain ⟨hP, hS⟩ := ih (counting_sort_for_radix l exp) max (exp * 10)
        hfuel2 (by omega)
        (by
          intro x hx
          rw [hpass] at hx
          exact hmax x (hbperm.mem_iff.mp hx))
        (by
          rw [hpass]
          exact buckets_sorted l exp hexp hs)
      refine ⟨hP.trans ?_, hS⟩
      rw [hpass]
      exact hbperm
    · rw [radix_loop, if_neg hcond]
      refine ⟨List.Perm.refl _, ?_⟩
      have hlt : max < exp := by
        have h0 : max / exp = 0 := Nat.eq_zero_of_not_pos hcond
        exact (Nat.div_eq_zero_iff hexp).mp h0
      exact sorted_of_sorted_mod l exp hexp (fun x hx => by
        have := hmax x hx
        omega) hs

theorem pairwise_mod_one (l : List Nat) :
    List.Sorted (fun a b => a % 1 ≤ b % 1) l := by
  induction l with
  | nil => exact List.sorted_nil
  | cons x t ih =>
    refine List.pairwise_cons.mpr ⟨fun b _ => ?_, ih⟩
    simp [Nat.mod_one]

theorem radix_sort_perm_sorted (data : List Nat) :
    List.Perm (radix_sort data) data ∧ List.Sorted (· ≤ ·) (radix_sort data) := by
  rw [radix_sort]
  apply radix_loop_spec (find_max (data.drop 1) (data.getD 0 0)) data _ 1
    (by omega) (by omega) ?_ (pairwise_mod_one data)
  intro x hx
  match data, hx with
  | x0 :: rest, hx =>
    rcases List.mem_cons.mp hx with rfl | h2
    · exact find_max_ge_init rest _
    · exact find_max_ge_mem rest _ x h2
/-- C10: for every array of nonnegative integers of length at most
`MAX_DATA_SIZE`, `bubble_sort`, `quick_sort` and `radix_sort` all produce the
same output, namely the ascending sorted permutation of the input array, so
`bubble_sort` and `radix_sort` always pass the `check_results` validation
against the `quick_sort` reference. -/
theorem C10_three_sorts_agree_on_sorted_permutation (l : List Nat)
    (h : l.length ≤ SortBench.MAX_DATA_SIZE) :
    List.Perm (quick_sort l) l ∧ List.Sorted (· ≤ ·) (quick_sort l) ∧
    bubble_sort l = quick_sort l ∧ radix_sort l = quick_sort l ∧
    check_results (bubble_sort l) (quick_sort l) l.length = true ∧
    check_results (radix_sort l) (quick_sort l) l.length = true := by
  obtain ⟨hqp, hqs⟩ := quick_sort_perm_sorted l
  obtain ⟨hbp, hbs⟩ := bubble_sort_perm_sorted l
  obtain ⟨hrp, hrs⟩ := radix_sort_perm_sorted l
  have hbq : bubble_sort l = quick_sort l :=
    List.eq_of_perm_of_sorted (hbp.trans hqp.symm) hbs hqs
  have hrq : radix_sort l = quick_sort l :=
    List.eq_of_perm_of_sorted (hrp.trans hqp.symm) hrs hqs
  have hcheck : check_results (quick_sort l) (quick_sort l) l.length = true := by
    rw [check_results]
    simp
  exact ⟨hqp, hqs, hbq, hrq, by rw [hbq]; exact hcheck, by rw [hrq]; exact hcheck⟩

/-- Witness for C10 at the concrete input `[3, 1, 2]`. -/
theorem C10_three_sorts_agree_on_sorted_permutation_witness :
    [3, 1, 2].length ≤ SortBench.MAX_DATA_SIZE ∧
    (List.Perm (quick_sort [3, 1, 2]) [3, 1, 2] ∧
      List.Sorted (· ≤ ·) (quick_sort [3, 1, 2]) ∧
      bubble_sort [3, 1, 2] = quick_sort [3, 1, 2] ∧
      radix_sort [3, 1, 2] = quick_sort [3, 1, 2] ∧
      check_results (bubble_sort [3, 1, 2]) (quick_sort [3, 1, 2])
        [3, 1, 2].length = true ∧
      check_results (radix_sort [3, 1, 2]) (quick_sort [3, 1, 2])
        [3, 1, 2].length = true) :=
  ⟨by decide, C10_three_sorts_agree_on_sorted_permutation [3, 1, 2] (by decide)⟩
